import Mathlib

/-!
# Verification of the TCpu synthesis core

A shallow embedding of the TCpu hardware-synthesis core (logic IR,
logic optimizer, logic simulator, netlist bridge coalescing, and the
annealing placement grid) together with proofs and refutations of the
specification claims.

Python object identities (for `Signal` and `Wire`) are modelled by
their integer `unique_id`; Python dictionaries keyed by objects are
modelled by association lists keyed by those ids; Python sets of
signals are modelled by duplicate-free lists.
-/

namespace TCpu

/-! ## The three-valued constant-propagation lattice (src/synth/flow/lattice.py)

The Python class is a dataclass with fields `is_overdef : bool` and
`value : Optional[T]`; `__post_init__` asserts that an overdef value
carries no payload.  `UNDEF` is `(False, None)`, `OVERDEF` is
`(True, None)`, `def(v)` is `(False, Some v)`. -/

structure Lattice (T : Type) where
  is_overdef : Bool
  value : Option T
deriving DecidableEq, Repr

namespace Lattice

def UNDEF : Lattice T := ⟨false, none⟩

def OVERDEF : Lattice T := ⟨true, none⟩

def new_def (v : T) : Lattice T := ⟨false, some v⟩

def undef : Lattice T := UNDEF

def overdef : Lattice T := OVERDEF

/-- `__post_init__`: `assert not (is_overdef and value is not None)`. -/
def Wf (a : Lattice T) : Prop := ¬(a.is_overdef = true ∧ a.value ≠ none)

def is_undef (a : Lattice T) : Bool := a.value.isNone && !a.is_overdef

def is_def (a : Lattice T) : Bool := a.value.isSome

/-- `can_be`: `self.is_overdef or (self.is_def and self.value == v)`. -/
def can_be [DecidableEq T] (a : Lattice T) (v : T) : Bool :=
  a.is_overdef || (a.is_def && a.value == some v)

/-- `merge`.  The trailing `assert False` branch of the source is
unreachable (once neither side is undef and neither is overdef, both
are def); we return `UNDEF` there. -/
def merge [DecidableEq T] (a b : Lattice T) : Lattice T :=
  if a.is_undef then b
  else if b.is_undef then a
  else if a.is_overdef || b.is_overdef then OVERDEF
  else if a.is_def && b.is_def then
    if a.value == b.value then a else OVERDEF
  else UNDEF

end Lattice

/-! ## Logic IR (src/synth/logic/logic_list.py)

Signals are identified by their `unique_id : Nat`.  The external
input/output Python sets are modelled as duplicate-free lists; debug
names and the builder counter carry no semantic content for the claims
and are omitted. -/

structure LUT where
  output : Nat
  inputs : List Nat
  table : List Bool
deriving DecidableEq, Repr

structure FF where
  output : Nat
  input : Nat
  init : Bool
deriving DecidableEq, Repr

structure LogicList where
  signals : List Nat
  luts : List LUT
  ffs : List FF
  external_inputs : List Nat
  external_outputs : List Nat
  next_signal_id : Nat
deriving DecidableEq, Repr

/-- `LUT.lines`: row `i` pairs the little-endian bit pattern of `i`
(one bit per input) with `table[i]`. -/
def LUT.lines (lut : LUT) : List (List Bool × Bool) :=
  (List.range lut.table.length).map fun i =>
    ((List.range lut.inputs.length).map fun j => Nat.testBit i j,
     lut.table.getD i false)

/-- `LUT.replace_consts`: keep the table rows compatible with the
constant inputs, and drop the constant inputs from the input list. -/
def LUT.replace_consts (lut : LUT) (consts : List (Option Bool)) : LUT :=
  { lut with
    table := (lut.lines.filter fun line =>
        (consts.zip line.1).all fun cv => cv.1 = none || cv.1 == some cv.2
      ).map (·.2)
    inputs := ((lut.inputs.zip consts).filter fun sc => sc.2 = none).map (·.1) }

/-- `LUT.operands_tuple`: `(*inputs, *table)`. -/
def LUT.operands_tuple (lut : LUT) : List Nat × List Bool :=
  (lut.inputs, lut.table)

/-- `FF.operands_tuple`: `(input, init)`. -/
def FF.operands_tuple (ff : FF) : Nat × Bool :=
  (ff.input, ff.init)

def LUT.replaceSig (f : Nat → Nat) (lut : LUT) : LUT :=
  { lut with output := f lut.output, inputs := lut.inputs.map f }

def FF.replaceSig (f : Nat → Nat) (ff : FF) : FF :=
  { ff with input := f ff.input, output := f ff.output }

namespace LogicList

/-- The number of occurrences of `old` among the signal slots scanned
by `replace_signal` (LUT outputs and inputs, FF inputs and outputs,
external markers). -/
def countSig (L : LogicList) (old : Nat) : Nat :=
  (L.luts.map fun lut =>
      (if lut.output = old then 1 else 0) + lut.inputs.count old).sum
  + (L.ffs.map fun ff =>
      (if ff.input = old then 1 else 0) + (if ff.output = old then 1 else 0)).sum
  + L.external_inputs.count old + L.external_outputs.count old

/-- `replace_signal old new`: rewrite every occurrence of `old` to
`new` in LUTs, FFs and the external marker sets, delete `old` from the
signal list, and return the number of occurrences rewritten.  A no-op
returning 0 when `old` and `new` are the same signal.  The external
marker sets are rebuilt as Python set comprehensions, so a rewrite
that collides with an existing member collapses with it (`dedup`). -/
def replace_signal (L : LogicList) (old new : Nat) : LogicList × Nat :=
  if old = new then (L, 0)
  else
    let f := fun s => if s = old then new else s
    ({ L with
        luts := L.luts.map (LUT.replaceSig f)
        ffs := L.ffs.map (FF.replaceSig f)
        external_inputs := (L.external_inputs.map f).dedup
        external_outputs := (L.external_outputs.map f).dedup
        signals := L.signals.filter (· ≠ old) },
     L.countSig old)

/-- `new_signal`: append a fresh signal id. -/
def new_signal (L : LogicList) : LogicList × Nat :=
  ({ L with signals := L.signals ++ [L.next_signal_id],
            next_signal_id := L.next_signal_id + 1 },
   L.next_signal_id)

end LogicList

/-! ## Logic optimizer passes (src/synth/flow/logic_opt.py)

Python iterates over the component lists while `replace_signal`
mutates the component objects in place; sets of components use object
identity.  We therefore process components by their index in the list
and collect deletion sets as index lists. -/

/-- One step of the `simplify` loop at LUT index `i`: when the LUT's
(current) table is `[False, True]`, replace its output signal by its
current first input signal and mark it for removal. -/
def simplifyStep (st : LogicList × List Nat × Bool) (i : Nat) :
    LogicList × List Nat × Bool :=
  if (st.1.luts.getD i ⟨0, [], []⟩).table = [false, true] then
    ((st.1.replace_signal (st.1.luts.getD i ⟨0, [], []⟩).output
        ((st.1.luts.getD i ⟨0, [], []⟩).inputs.getD 0 0)).1,
     st.2.1 ++ [i], true)
  else st

/-- `simplify`: remove every LUT whose table is `[False, True]`,
replacing its output signal by its (current) first input signal. -/
def simplify (L : LogicList) : LogicList × Bool :=
  ({ ((List.range L.luts.length).foldl simplifyStep (L, [], false)).1 with
      luts := ((((List.range L.luts.length).foldl simplifyStep (L, [], false)).1.luts.enum.filter
        fun p => p.1 ∉ ((List.range L.luts.length).foldl simplifyStep (L, [], false)).2.1).map (·.2)) },
   ((List.range L.luts.length).foldl simplifyStep (L, [], false)).2.2)

/-- The buffer LUTs of a list: exactly those `simplify` removes. -/
def buffers (L : LogicList) : List LUT :=
  L.luts.filter fun l => l.table = [false, true]

/-- The signal substitution induced by a set of buffer LUTs: a
buffer's output goes to its input, everything else is fixed. -/
def bufSubstOn (B : List LUT) (s : Nat) : Nat :=
  match B.find? (fun b => b.output = s) with
  | some b => b.inputs.getD 0 0
  | none => s

/-- The buffer LUTs among the first `t` entries of the LUT list. -/
def buffersUpTo (L : LogicList) (t : Nat) : List LUT :=
  (L.luts.take t).filter fun l => l.table = [false, true]

/-- Loop invariant of the `simplify` fold after processing the first
`t` LUT indices: the state is the original list with the substitution
of the buffers seen so far applied everywhere, their outputs removed
from the signal list, and their indices recorded for deletion. -/
def SimpInv (L : LogicList) (t : Nat) (st : LogicList × List Nat × Bool) : Prop :=
  st.1.luts = L.luts.map (LUT.replaceSig (bufSubstOn (buffersUpTo L t))) ∧
  st.1.ffs = L.ffs.map (FF.replaceSig (bufSubstOn (buffersUpTo L t))) ∧
  st.1.external_inputs
    = (L.external_inputs.map (bufSubstOn (buffersUpTo L t))).dedup ∧
  st.1.external_outputs
    = (L.external_outputs.map (bufSubstOn (buffersUpTo L t))).dedup ∧
  st.1.signals
    = L.signals.filter (fun s => s ∉ (buffersUpTo L t).map (·.output)) ∧
  st.1.next_signal_id = L.next_signal_id ∧
  st.2.1 = (List.range t).filter
    (fun i => (L.luts.getD i ⟨0, [], []⟩).table = [false, true]) ∧
  st.2.2 = !(buffersUpTo L t).isEmpty

/-- The worklist state of a `deduplicate` phase: the mutating list,
the `ffs`/`luts` dict (visit-time operand key ↦ index of the kept
component), the deletion index set, and the replacement count. -/
abbrev DedupState (K : Type) := LogicList × List (K × Nat) × List Nat × Nat

/-- One step of the FF phase of `deduplicate` at list index `i`:
record a fresh operand key, or replace the duplicate's output by the
kept FF's output and mark the duplicate for deletion. -/
def dedupFFStep (st : DedupState (Nat × Bool)) (i : Nat) : DedupState (Nat × Bool) :=
  match st.2.1.find?
      (fun p => p.1 = (st.1.ffs.getD i ⟨0, 0, false⟩).operands_tuple) with
  | none =>
    (st.1, st.2.1 ++ [((st.1.ffs.getD i ⟨0, 0, false⟩).operands_tuple, i)],
     st.2.2.1, st.2.2.2)
  | some p =>
    ((st.1.replace_signal (st.1.ffs.getD i ⟨0, 0, false⟩).output
        (st.1.ffs.getD p.2 ⟨0, 0, false⟩).output).1,
     st.2.1, st.2.2.1 ++ [i],
     st.2.2.2 + (st.1.replace_signal (st.1.ffs.getD i ⟨0, 0, false⟩).output
        (st.1.ffs.getD p.2 ⟨0, 0, false⟩).output).2)

/-- One step of the LUT phase of `deduplicate` at list index `i`. -/
def dedupLUTStep (st : DedupState (List Nat × List Bool)) (i : Nat) :
    DedupState (List Nat × List Bool) :=
  match st.2.1.find?
      (fun p => p.1 = (st.1.luts.getD i ⟨0, [], []⟩).operands_tuple) with
  | none =>
    (st.1, st.2.1 ++ [((st.1.luts.getD i ⟨0, [], []⟩).operands_tuple, i)],
     st.2.2.1, st.2.2.2)
  | some p =>
    ((st.1.replace_signal (st.1.luts.getD i ⟨0, [], []⟩).output
        (st.1.luts.getD p.2 ⟨0, [], []⟩).output).1,
     st.2.1, st.2.2.1 ++ [i],
     st.2.2.2 + (st.1.replace_signal (st.1.luts.getD i ⟨0, [], []⟩).output
        (st.1.luts.getD p.2 ⟨0, [], []⟩).output).2)

/-- The FF phase of `deduplicate`. -/
def dedupPhase1 (L : LogicList) : DedupState (Nat × Bool) :=
  (List.range L.ffs.length).foldl dedupFFStep (L, [], [], 0)

/-- The LUT phase of `deduplicate`, run on the FF phase's result. -/
def dedupPhase2 (L : LogicList) : DedupState (List Nat × List Bool) :=
  (List.range (dedupPhase1 L).1.luts.length).foldl dedupLUTStep
    ((dedupPhase1 L).1, [], [], (dedupPhase1 L).2.2.2)

/-- The two worklist phases of `deduplicate`, with the final filters.
Returns the resulting list, the total replacement count and the two
index sets of deleted components. -/
def deduplicateFull (L : LogicList) : LogicList × Nat × List Nat × List Nat :=
  ({ (dedupPhase2 L).1 with
      ffs := ((dedupPhase2 L).1.ffs.enum.filter
        fun p => p.1 ∉ (dedupPhase1 L).2.2.1).map (·.2)
      luts := ((dedupPhase2 L).1.luts.enum.filter
        fun p => p.1 ∉ (dedupPhase2 L).2.2.1).map (·.2) },
   (dedupPhase2 L).2.2.2, (dedupPhase1 L).2.2.1, (dedupPhase2 L).2.2.1)

/-- `deduplicate`: reports `replaced > 0`. -/
def deduplicate (L : LogicList) : LogicList × Bool :=
  let r := deduplicateFull L
  (r.1, r.2.1 > 0)

/-- Shape of one `deduplicate` worklist step: either nothing but the
dict changes, or the deletion set grows. -/
def DedupStepShape {K : Type} (step : DedupState K → Nat → DedupState K) : Prop :=
  ∀ st i,
    ((step st i).1 = st.1 ∧ (step st i).2.2.1 = st.2.2.1 ∧
      (step st i).2.2.2 = st.2.2.2) ∨
    (∃ j, (step st i).2.2.1 = st.2.2.1 ++ [j])

/-- The signals a definition of `s` depends on (`def_inputs` over
`UseDef.defs[s]`): the inputs of every LUT driving `s` and the input
of every FF driving `s`; external-input definitions have none. -/
def defInputsOf (L : LogicList) (s : Nat) : List Nat :=
  ((L.luts.filter fun lut => lut.output = s).map (·.inputs)).flatten
  ++ (L.ffs.filter fun ff => ff.output = s).map (·.input)

/-- One round of the liveness closure of `remove_dead`. -/
def liveStep (L : LogicList) (live : List Nat) : List Nat :=
  (live ++ (live.map (defInputsOf L)).flatten).dedup

/-- The live signals: the closure of external inputs and outputs under
`defInputsOf`.  The Python worklist computes exactly this closure; we
iterate the monotone round function to its fixed point (the number of
distinct signals mentioned anywhere bounds the closure size). -/
def liveSignals (L : LogicList) : List Nat :=
  let bound := (L.signals ++ L.external_inputs ++ L.external_outputs
    ++ (L.luts.map fun lut => lut.output :: lut.inputs).flatten
    ++ (L.ffs.map fun ff => [ff.output, ff.input]).flatten).dedup.length
  (liveStep L)^[bound + 1] ((L.external_inputs ++ L.external_outputs).dedup)

/-- `remove_dead`: delete FFs, LUTs and signals that are not live;
report whether the total count decreased. -/
def remove_dead (L : LogicList) : LogicList × Bool :=
  let live := liveSignals L
  let ffs := L.ffs.filter fun ff => ff.output ∈ live
  let luts := L.luts.filter fun lut => lut.output ∈ live
  let signals := L.signals.filter (· ∈ live)
  ({ L with ffs := ffs, luts := luts, signals := signals },
   ffs.length + luts.length + signals.length
     < L.ffs.length + L.luts.length + L.signals.length)

/-! ### Constant propagation (`const_propagation`, `eval_lut`)

The lattice environment (`defaultdict(lambda: Lattice.UNDEF)`) is
modelled as a total function defaulting to `UNDEF`.  The Python
worklist performs chaotic iteration of the monotone per-component
transfer functions and thus computes their least fixed point; we reach
the same fixed point by round-robin sweeps (each sweep either changes
nothing — a fixed point — or strictly raises some output in a lattice
of height 2, so `2·#components + 1` sweeps suffice). -/

/-- The body of `eval_lut`: fold the compatible table rows into the
result, short-circuiting as soon as it becomes overdef. -/
def evalLutGo (lat : Nat → Lattice Bool) (inputs : List Nat) :
    List (List Bool × Bool) → Lattice Bool → Lattice Bool
  | [], r => r
  | (ins, out) :: rest, r =>
    if (inputs.zip ins).all (fun sv => (lat sv.1).can_be sv.2) then
      let r2 := r.merge (Lattice.new_def out)
      if r2.is_overdef then r2 else evalLutGo lat inputs rest r2
    else evalLutGo lat inputs rest r

/-- `eval_lut`. -/
def eval_lut (lut : LUT) (lat : Nat → Lattice Bool) : Lattice Bool :=
  evalLutGo lat lut.inputs lut.lines Lattice.undef

/-- The initial lattice state: external inputs OVERDEF, then FF
outputs def(init) (later writes win, as in the Python loops). -/
def latInit (L : LogicList) : Nat → Lattice Bool :=
  let base := L.external_inputs.foldl
    (fun lat s => fun x => if x = s then Lattice.OVERDEF else lat x)
    (fun _ => Lattice.UNDEF)
  L.ffs.foldl
    (fun lat ff => fun x => if x = ff.output then Lattice.new_def ff.init else lat x)
    base

/-- One round-robin sweep of the dataflow loop: each component merges
its transfer result into its output's current value. -/
def cpStep (L : LogicList) (lat0 : Nat → Lattice Bool) : Nat → Lattice Bool :=
  let afterFFs := L.ffs.foldl
    (fun lat ff => fun x =>
      if x = ff.output then (lat ff.output).merge (lat ff.input) else lat x)
    lat0
  L.luts.foldl
    (fun lat lut => fun x =>
      if x = lut.output then (lat lut.output).merge (eval_lut lut lat) else lat x)
    afterFFs

/-- The dataflow fixed point computed by the worklist loop. -/
def cpFix (L : LogicList) : Nat → Lattice Bool :=
  (cpStep L)^[2 * (L.ffs.length + L.luts.length) + 1] (latInit L)

/-- Users of a signal, as rebuilt by `UseDef.from_logic`: the LUTs it
feeds, the FFs it feeds, and the external-output markers.  The Python
sets are unordered; the simplification loop below guards every
component so its processing is order-independent. -/
inductive LUser where
  | uLUT (i : Nat)
  | uFF (i : Nat)
  | uExtOut (i : Nat)
deriving DecidableEq, Repr

def usersOf (L : LogicList) (s : Nat) : List LUser :=
  ((List.range L.luts.length).filter
      (fun i => s ∈ (L.luts.getD i ⟨0, [], []⟩).inputs)).map LUser.uLUT
  ++ ((List.range L.ffs.length).filter
      (fun i => (L.ffs.getD i ⟨0, 0, false⟩).input = s)).map LUser.uFF
  ++ ((List.range L.external_outputs.length).filter
      (fun i => L.external_outputs.getD i 0 = s)).map LUser.uExtOut

/-- State of the simplification phase of `const_propagation`: the
mutating LogicList, the `luts_updated` index set and the `ffs_deleted`
index set. -/
structure CPApplyState where
  cur : LogicList
  lutsUpdated : List Nat
  ffsDeleted : List Nat

/-- Process one user of a def-valued signal `s` in the simplification
phase of `const_propagation`.  `lat` is the fixed-point lattice and
`L0` the LogicList as it was when `use_def` was built. -/
def cpApplyUser (lat : Nat → Lattice Bool) (s : Nat) (st : CPApplyState) :
    LUser → CPApplyState
  | .uLUT i =>
    if i ∈ st.lutsUpdated then st
    else
      let lut := st.cur.luts.getD i ⟨0, [], []⟩
      let consts := lut.inputs.map fun inp =>
        let lv := lat inp
        if lv.is_def then lv.value else none
      { st with
        cur := { st.cur with luts := st.cur.luts.set i (lut.replace_consts consts) }
        lutsUpdated := st.lutsUpdated ++ [i] }
  | .uFF i =>
    if i ∈ st.ffsDeleted then st
    else
      let ff := st.cur.ffs.getD i ⟨0, 0, false⟩
      let constLut : LUT := ⟨ff.output, [], [(lat s).value.getD false]⟩
      let withLut := { st.cur with luts := st.cur.luts ++ [constLut] }
      let (withSig, dummy) := withLut.new_signal
      { st with
        cur := { withSig with ffs := withSig.ffs.set i { ff with output := dummy } }
        ffsDeleted := st.ffsDeleted ++ [i] }
  | .uExtOut _ => st

/-- The simplification phase of `const_propagation`: for every signal
whose fixed-point value is def, rewrite its LUT users' tables and
replace its FF users by zero-input constant LUTs (retargeting the FF
to a fresh dummy signal).  The Python code iterates over the touched
lattice keys; every key with a LUT/FF user is a signal of the list, so
we iterate over the signal list. -/
def cpApply (L : LogicList) (lat : Nat → Lattice Bool) : CPApplyState :=
  L.signals.foldl
    (fun st s =>
      if (lat s).is_def then (usersOf L s).foldl (cpApplyUser lat s) st else st)
    ⟨L, [], []⟩

/-- `const_propagation`: run the dataflow to its fixed point, apply
the simplifications, and report whether anything changed. -/
def const_propagation (L : LogicList) : LogicList × Bool :=
  let st := cpApply L (cpFix L)
  (st.cur, st.lutsUpdated.length > 0 || st.ffsDeleted.length > 0)

/-- `optimize_logic`: iterate the four passes until none reports a
change.  The Python loop has no fuel; we supply enough fuel and the
concrete theorems below check that the loop has converged. -/
def optimize_logic : Nat → LogicList → LogicList
  | 0, L => L
  | fuel + 1, L =>
    let (L1, c1) := const_propagation L
    let (L2, c2) := remove_dead L1
    let (L3, c3) := deduplicate L2
    let (L4, c4) := simplify L3
    if c1 || c2 || c3 || c4 then optimize_logic fuel L4 else L4

/-! ## Validator (`LogicList.validate`, src/synth/logic/logic_list.py)

`validate` raises on: a referenced signal missing from the list, a
duplicate signal id, more than one driver on a signal (external-input
marks count as drivers), or a combinational LUT cycle.  Warnings are
not modelled.  The source detects cycles by DFS; we decide the same
property (acyclicity of the LUT input→output graph) by iterating the
"every feeding LUT is already known loop-free" closure. -/

def lutsAcyclic (L : LogicList) : Bool :=
  let n := L.luts.length
  let step : List Nat → List Nat := fun free =>
    (List.range n).filter fun i =>
      (L.luts.getD i ⟨0, [], []⟩).inputs.all fun inp =>
        (List.range n).all fun j =>
          !((L.luts.getD j ⟨0, [], []⟩).output == inp) || free.contains j
  let free := step^[n + 1] []
  (List.range n).all (free.contains ·)

def driverCount (L : LogicList) (s : Nat) : Nat :=
  (if s ∈ L.external_inputs then 1 else 0)
  + (L.luts.filter fun lut => lut.output = s).length
  + (L.ffs.filter fun ff => ff.output = s).length

def validateOk (L : LogicList) : Bool :=
  let used := L.external_outputs ++ (L.luts.map (·.inputs)).flatten
    ++ L.ffs.map (·.input)
  let driven := L.external_inputs ++ L.luts.map (·.output) ++ L.ffs.map (·.output)
  used.all (· ∈ L.signals)
  && driven.all (· ∈ L.signals)
  && L.external_inputs.all (· ∈ L.signals)
  && L.external_outputs.all (· ∈ L.signals)
  && decide L.signals.Nodup
  && driven.all (fun s => driverCount L s ≤ 1)
  && lutsAcyclic L

/-! ## Logic simulator (`logic_sim`, src/synth/flow/logic_sim.py)

The per-step state dict maps a signal to `Optional[bool]`; an absent
key is distinct from a present-but-`None` (high-impedance) value.
Crashes of the Python code (failed assertions, `KeyError`) are
modelled as `none`.

`logic_sim` calls `d.eval(...)` on each LUT definition, but `LUT` has
no `eval` method anywhere under src/; `LUT.eval` below is therefore
modelled from the spec. -/

/-- Modelled from the spec: `LUT.eval` is invoked by `logic_sim`
(src/synth/flow/logic_sim.py, line 72) but no `eval` method of `LUT`
exists under src/.  Spec §3: "Table indexing is little-endian: entry
at index Σᵢ bᵢ·2^i gives the output when sᵢ = bᵢ"; spec §4.6/§7: the
unknown value ⊥ propagates through evaluation. -/
def bitsToNat : List Bool → Nat
  | [] => 0
  | b :: rest => (if b then 1 else 0) + 2 * bitsToNat rest

def LUT.eval (lut : LUT) (vals : List (Option Bool)) : Option Bool :=
  if vals.all (·.isSome) then
    some (lut.table.getD (bitsToNat (vals.map (·.getD false))) false)
  else none

/-- A definition of a signal, as rebuilt by `UseDef.from_logic`. -/
inductive LDef where
  | dLUT (lut : LUT)
  | dFF (ff : FF)
  | dExtIn (i : Nat)
deriving DecidableEq, Repr

def defsOf (L : LogicList) (s : Nat) : List LDef :=
  ((List.range L.external_inputs.length).filter
      (fun i => L.external_inputs.getD i 0 = s)).map LDef.dExtIn
  ++ ((L.luts.filter fun lut => lut.output = s).map LDef.dLUT)
  ++ ((L.ffs.filter fun ff => ff.output = s).map LDef.dFF)

/-- The per-step signal dict. -/
abbrev SimState := List (Nat × Option Bool)

def stLookup (st : SimState) (s : Nat) : Option (Option Bool) :=
  (List.find? (fun p => p.1 = s) st).map (·.2)

def stInsert (st : SimState) (s : Nat) (v : Option Bool) : SimState :=
  if (List.find? (fun p => p.1 = s) st).isSome then
    List.map (fun p => if p.1 = s then (s, v) else p) st
  else st ++ [(s, v)]

/-! The recursive `eval` of `logic_sim`.  Fuel only bounds the
recursion depth (the Python recursion terminates on LUT-loop-free
logic, which `validate` has established); `simFuel` dominates the
total number of calls, so fuel exhaustion is unreachable for
simulations that the Python code completes. -/

mutual

/-- `eval(state, signal)`: cached lookup, else evaluate all LUT
definitions of the signal, assert a single result, cache and return
it.  A signal with no definitions yields `None` and is not cached. -/
def evalSig (L : LogicList) : Nat → SimState → Nat → Option (SimState × Option Bool)
  | 0, _, _ => none
  | fuel + 1, st, s =>
    match stLookup st s with
    | some v => some (st, v)
    | none =>
      match evalDefs L fuel st (defsOf L s) [] with
      | none => none
      | some (st2, results) =>
        match results with
        | [] => some (st2, none)
        | [v] => some (stInsert st2 s v, v)
        | _ => none

/-- Evaluate each definition (asserting it is a LUT), collecting the
set of distinct results. -/
def evalDefs (L : LogicList) :
    Nat → SimState → List LDef → List (Option Bool) →
    Option (SimState × List (Option Bool))
  | 0, _, _, _ => none
  | _ + 1, st, [], acc => some (st, acc)
  | fuel + 1, st, d :: rest, acc =>
    match d with
    | .dLUT lut =>
      match evalInputs L fuel st lut.inputs with
      | none => none
      | some (st2, vals) =>
        let v := lut.eval vals
        evalDefs L fuel st2 rest (if v ∈ acc then acc else acc ++ [v])
    | _ => none

/-- Evaluate a list of input signals left to right. -/
def evalInputs (L : LogicList) :
    Nat → SimState → List Nat → Option (SimState × List (Option Bool))
  | 0, _, _ => none
  | _ + 1, st, [] => some (st, [])
  | fuel + 1, st, x :: rest =>
    match evalSig L fuel st x with
    | none => none
    | some (st2, v) =>
      match evalInputs L fuel st2 rest with
      | none => none
      | some (st3, vals) => some (st3, v :: vals)

end

/-- Ample fuel for the examples below: dominates the size of the LUT
graph. -/
def simFuel (L : LogicList) : Nat :=
  3 * ((L.luts.map fun lut => lut.inputs.length + 2).sum
    + L.signals.length + L.ffs.length + L.external_inputs.length + 2)

/-- One simulation step: external inputs are held at 0 (the
simulator's input schedule), each FF output takes the previous state
at the FF's *input* signal, then every LUT output is evaluated. -/
def simStep (L : LogicList) (prev : SimState) : Option SimState := do
  let curr0 := L.external_inputs.foldl (fun st x => stInsert st x (some false)) []
  let curr1 ← L.ffs.foldlM
    (fun st ff =>
      match stLookup prev ff.input with
      | none => none          -- `prev[ff.input]` raises KeyError
      | some v => some (stInsert st ff.output v))
    curr0
  L.luts.foldlM
    (fun st lut =>
      match evalSig L (simFuel L) st lut.output with
      | none => none
      | some (st2, v) => some (stInsert st2 lut.output v))
    curr1

/-- The initial `prev` dict: `{ff.input: ff.init for ff in logic.ffs}`.
It is keyed by the FF *input* signal, so when several FFs share an
input signal the last FF in the list wins. -/
def simInit (L : LogicList) : SimState :=
  L.ffs.foldl (fun st ff => stInsert st ff.input (some ff.init)) []

def simHistoryAux (L : LogicList) : Nat → SimState → Option (List SimState)
  | 0, _ => some []
  | n + 1, prev => do
    let curr ← simStep L prev
    let rest ← simHistoryAux L n curr
    pure (curr :: rest)

/-- `logic_sim` followed by `History.outputs`: validate, simulate
`steps` steps, and read each external output out of each step's state
(`KeyError` on a missing output is a crash). -/
def logic_simOutputs (L : LogicList) (steps : Nat) : Option (List (List (Option Bool))) :=
  if validateOk L then do
    let hist ← simHistoryAux L steps (simInit L)
    hist.mapM fun st => L.external_outputs.mapM fun s => stLookup st s
  else none

/-- The full signal history of `logic_sim` (used to read individual
signals at individual steps). -/
def logic_simHistory (L : LogicList) (steps : Nat) : Option (List SimState) :=
  if validateOk L then simHistoryAux L steps (simInit L) else none

/-! ## Netlist IR and bridge coalescing
(src/synth/net/net_list.py, src/synth/flow/net_opt.py,
src/synth/flow/opt_util.py)

Wires are identified by their `unique_id`; Python dicts keyed by wire
objects become association lists keyed by ids.  Of the component
variants only `Bridge` is treated specially by `combine_connections`;
`resistor` stands in for the remaining two-port variants, whose
`replace_wire` behaves identically.  A failed `assert` (and a
diverging `while` loop) in `canonicalize` is modelled as `none`. -/

inductive NetComponent where
  | bridge (a b : Nat)
  | resistor (a b : Nat)
deriving DecidableEq, Repr

def NetComponent.isBridge : NetComponent → Bool
  | .bridge _ _ => true
  | _ => false

def NetComponent.replaceW (f : Nat → Nat) : NetComponent → NetComponent
  | .bridge a b => .bridge (f a) (f b)
  | .resistor a b => .resistor (f a) (f b)

def NetComponent.wireCount (old : Nat) : NetComponent → Nat
  | .bridge a b => (if a = old then 1 else 0) + (if b = old then 1 else 0)
  | .resistor a b => (if a = old then 1 else 0) + (if b = old then 1 else 0)

structure NetList where
  wires : List Nat
  components : List NetComponent
deriving DecidableEq, Repr

/-- `NetList.replace_wire`: rewrite every component port referring to
`old` to `new` and return the number of rewritten ports (0 when the
wires coincide).  The wire list itself is not touched. -/
def NetList.replace_wire (net : NetList) (old new : Nat) : NetList × Nat :=
  if old = new then (net, 0)
  else
    ({ net with components :=
        net.components.map (NetComponent.replaceW fun w => if w = old then new else w) },
     (net.components.map (NetComponent.wireCount old)).sum)

/-- Phase 1 of `canonicalize`: build the `better` dict.  Each pair is
followed *one* step through `better`; the source then asserts that
neither endpoint is still a key (`assert a not in better and b not in
better`) — a failing assertion yields `none`. -/
def canonPhase1 (prefer : Nat → Nat → Bool) :
    List (Nat × Nat) → List (Nat × Nat) → Option (List (Nat × Nat))
  | [], better => some better
  | (a, b) :: rest, better =>
    let a := match better.find? (fun p => p.1 = a) with
      | some p => p.2
      | none => a
    let b := match better.find? (fun p => p.1 = b) with
      | some p => p.2
      | none => b
    if (better.find? (fun p => p.1 = a)).isSome
        || (better.find? (fun p => p.1 = b)).isSome then
      none
    else if prefer a b then canonPhase1 prefer rest (better ++ [(b, a)])
    else canonPhase1 prefer rest (better ++ [(a, b)])

/-- The chain-following `while` loop of phase 2 of `canonicalize`.
`none` models divergence (a cycle in `better`); the fuel passed below
exceeds every acyclic chain length. -/
def canonFollow (better : List (Nat × Nat)) : Nat → Nat → Option Nat
  | 0, _ => none
  | fuel + 1, b =>
    match better.find? (fun p => p.1 = b) with
    | none => some b
    | some p => canonFollow better fuel p.2

/-- `canonicalize`: map every non-canonical value to its best value. -/
def canonicalize (connections : List (Nat × Nat)) (prefer : Nat → Nat → Bool) :
    Option (List (Nat × Nat)) := do
  let better ← canonPhase1 prefer connections []
  better.mapM fun p => do
    let best ← canonFollow better (better.length + 1) p.2
    pure (p.1, best)

/-- `combine_connections`: take the bridges out of the component list,
canonicalize the induced connections preferring smaller unique ids,
and apply each replacement; report whether any port was rewritten. -/
def combine_connections (net : NetList) : Option (NetList × Bool) := do
  let connections := net.components.filterMap fun c =>
    match c with
    | .bridge a b => some (a, b)
    | _ => none
  let net1 : NetList := { net with components := net.components.filter (!·.isBridge) }
  let best ← canonicalize connections (fun a b => a < b)
  let res := best.foldl
    (fun (acc : NetList × Nat) ab =>
      let (n2, c) := acc.1.replace_wire ab.1 ab.2
      (n2, acc.2 + c))
    (net1, 0)
  pure (res.1, res.2 > 0)

/-! ## Placement grid (src/synth/flow/net_to_grid.py)

The 2-D numpy array `grid` is stored flattened by the grid index `gi`;
the source always addresses it through the bijection
`grid_index_to_xy(gi) = (gi % size, gi // size)`.  Cells hold the
occupying component index or the sentinel `GRID_EMPTY`.  The random
choices of `opt_step` (the two cells, and the outcome of
`np.random.uniform() < temp`) are passed in as parameters. -/

def GRID_EMPTY : Int := -(2 ^ 32)

structure Grid where
  grid_size : Nat
  wire_index_to_component_indices : List (List Nat)
  component_index_to_wire_indices : List (List Nat)
  grid : List Int
  component_to_grid_pos : List Nat
  wire_index_to_cost : List Int
  curr_cost : Int
deriving DecidableEq, Repr

namespace Grid

def grid_area (g : Grid) : Nat := g.grid_size * g.grid_size

def numWires (g : Grid) : Nat := g.wire_index_to_component_indices.length

def numComponents (g : Grid) : Nat := g.component_index_to_wire_indices.length

/-- The x coordinate of a component's grid position
(`grid_index_to_xy(component_to_grid_pos[ci]).0`). -/
def compX (g : Grid) (ci : Nat) : Nat :=
  g.component_to_grid_pos.getD ci 0 % g.grid_size

/-- The y coordinate of a component's grid position. -/
def compY (g : Grid) (ci : Nat) : Nat :=
  g.component_to_grid_pos.getD ci 0 / g.grid_size

/-- `wire_half_perimeter_cost`: 0 for at most one attached component,
otherwise the bounding-box half perimeter of the attached components'
positions, accumulated exactly as the source's min/max loop does
(folding from the first element rather than from ±∞). -/
def wire_half_perimeter_cost (g : Grid) (wi : Nat) : Int :=
  match g.wire_index_to_component_indices.getD wi [] with
  | [] => 0
  | [_] => 0
  | c :: cs =>
    let minX := cs.foldl (fun m ci => min m (g.compX ci)) (g.compX c)
    let maxX := cs.foldl (fun m ci => max m (g.compX ci)) (g.compX c)
    let minY := cs.foldl (fun m ci => min m (g.compY ci)) (g.compY c)
    let maxY := cs.foldl (fun m ci => max m (g.compY ci)) (g.compY c)
    ((maxX : Int) - minX) + ((maxY : Int) - minY)

def wire_cost (g : Grid) (wi : Nat) : Int :=
  g.wire_half_perimeter_cost wi

/-- The wire cost as the spec words it, for comparison with the
implementation: "(max_x − min_x) + (max_y − min_y) over the grid
positions of the components attached to that wire.  Wires with zero
or one attached component contribute zero." -/
def hpwlSpec (g : Grid) (wi : Nat) : Int :=
  let cis := g.wire_index_to_component_indices.getD wi []
  if cis.length ≤ 1 then 0
  else
    let xs := cis.map g.compX
    let ys := cis.map g.compY
    ((xs.max?.getD 0 : Int) - (xs.min?.getD 0 : Int))
      + ((ys.max?.getD 0 : Int) - (ys.min?.getD 0 : Int))

def calc_wire_costs (g : Grid) : List Int :=
  (List.range g.numWires).map g.wire_cost

/-- The final two lines of `Grid.__init__`: fill the cost cache and
the cached total from scratch. -/
def withInitCosts (g : Grid) : Grid :=
  let costs := g.calc_wire_costs
  { g with wire_index_to_cost := costs, curr_cost := costs.sum }

/-- `swap_grid_cells_leave_cost`: `none` models a `False` return (no
swap performed). -/
def swap_grid_cells_leave_cost (g : Grid) (ai bi : Nat) : Option Grid :=
  if ai = bi then none
  else
    let ca := g.grid.getD ai GRID_EMPTY
    let cb := g.grid.getD bi GRID_EMPTY
    if ca = cb then none
    else
      let grid2 := (g.grid.set ai cb).set bi ca
      let pos2 :=
        if ca ≠ GRID_EMPTY then g.component_to_grid_pos.set ca.toNat bi
        else g.component_to_grid_pos
      let pos3 :=
        if cb ≠ GRID_EMPTY then pos2.set cb.toNat ai
        else pos2
      some { g with grid := grid2, component_to_grid_pos := pos3 }

/-- The set of wires touched by either occupant of the two swapped
cells (`affected_wires`, read from the grid after the swap). -/
def affectedWires (g1 : Grid) (ai bi : Nat) : List Nat :=
  ((if g1.grid.getD ai GRID_EMPTY ≠ GRID_EMPTY
      then g1.component_index_to_wire_indices.getD (g1.grid.getD ai GRID_EMPTY).toNat []
      else [])
    ++ (if g1.grid.getD bi GRID_EMPTY ≠ GRID_EMPTY
      then g1.component_index_to_wire_indices.getD (g1.grid.getD bi GRID_EMPTY).toNat []
      else [])).dedup

/-- The affected wires zipped with their freshly recomputed costs
(`affected_wires_cost`). -/
def swapPairs (g1 : Grid) (ai bi : Nat) : List (Nat × Int) :=
  (affectedWires g1 ai bi).map fun wi => (wi, g1.wire_cost wi)

/-- The incrementally updated total cost (`new_cost`). -/
def swapNewCost (g1 : Grid) (ai bi : Nat) : Int :=
  g1.curr_cost + ((swapPairs g1 ai bi).map
    fun p => p.2 - g1.wire_index_to_cost.getD p.1 0).sum

/-- The grid state committed on acceptance: the per-wire cost cache is
updated for the affected wires and the cached total replaced by the
incremental one. -/
def acceptState (g1 : Grid) (ai bi : Nat) : Grid :=
  { g1 with
    curr_cost := swapNewCost g1 ai bi
    wire_index_to_cost :=
      (swapPairs g1 ai bi).foldl (fun l p => l.set p.1 p.2) g1.wire_index_to_cost }

/-- `try_swap_cells`.  `acceptRandom` is the outcome of
`np.random.uniform() < temp`. -/
def try_swap_cells (g : Grid) (ai bi : Nat) (acceptRandom : Bool) : Grid × Bool :=
  match g.swap_grid_cells_leave_cost ai bi with
  | none => (g, false)
  | some g1 =>
    if swapNewCost g1 ai bi < g1.curr_cost || acceptRandom then
      (acceptState g1 ai bi, true)
    else
      match g1.swap_grid_cells_leave_cost ai bi with
      | some g2 => (g2, false)
      | none => (g1, false)

/-- `opt_step`: `pick_swap_random` draws `ai, bi` uniformly from
`[0, grid_area)` and `try_swap_cells` does the work. -/
def opt_step (g : Grid) (ai bi : Nat) (acceptRandom : Bool) : Grid × Bool :=
  g.try_swap_cells ai bi acceptRandom

/-- Well-formedness of the immutable lookup tables, as built by
`Grid.__init__`: the wire↔component incidence lists agree and stay in
range. -/
def Wf (g : Grid) : Prop :=
  (∀ ci, ci < g.numComponents →
    ∀ wi ∈ g.component_index_to_wire_indices.getD ci [],
      wi < g.numWires ∧ ci ∈ g.wire_index_to_component_indices.getD wi []) ∧
  (∀ wi, wi < g.numWires →
    ∀ ci ∈ g.wire_index_to_component_indices.getD wi [],
      ci < g.numComponents ∧ wi ∈ g.component_index_to_wire_indices.getD ci [])

/-- The grid ↔ component-position part of the `check_validness`
invariants: the grid array and the position table agree
bidirectionally (plus the array lengths these checks rely on). -/
def PosInv (g : Grid) : Prop :=
  g.grid.length = g.grid_area ∧
  g.component_to_grid_pos.length = g.numComponents ∧
  (∀ ci, ci < g.numComponents →
    g.component_to_grid_pos.getD ci 0 < g.grid_area ∧
    g.grid.getD (g.component_to_grid_pos.getD ci 0) GRID_EMPTY = (ci : Int)) ∧
  (∀ gi, gi < g.grid_area →
    (∀ ci, ci < g.numComponents → g.component_to_grid_pos.getD ci 0 ≠ gi) →
    g.grid.getD gi GRID_EMPTY = GRID_EMPTY)

/-- The cost-cache part of the `check_validness` invariants: every
cached per-wire cost matches a fresh recomputation, and the cached
total is the sum of the cached per-wire costs. -/
def CostInv (g : Grid) : Prop :=
  g.wire_index_to_cost.length = g.numWires ∧
  (∀ wi, wi < g.numWires → g.wire_index_to_cost.getD wi 0 = g.wire_cost wi) ∧
  g.curr_cost = g.wire_index_to_cost.sum

/-- The full `check_validness` invariant. -/
def Inv (g : Grid) : Prop :=
  g.PosInv ∧ g.CostInv

instance instDecidableWf (g : Grid) : Decidable g.Wf := by
  unfold Grid.Wf; infer_instance

instance instDecidablePosInv (g : Grid) : Decidable g.PosInv := by
  unfold Grid.PosInv; infer_instance

instance instDecidableCostInv (g : Grid) : Decidable g.CostInv := by
  unfold Grid.CostInv; infer_instance

instance instDecidableInvG (g : Grid) : Decidable g.Inv := by
  unfold Grid.Inv; infer_instance

end Grid

/-! ## Concrete instances used by the counterexamples and witnesses -/

/-- A constant-0 LUT driving signal 0, feeding a FF initialised to 1
whose output (signal 1) is the external output. -/
def exConstFF : LogicList :=
  ⟨[0, 1], [⟨0, [], [false]⟩], [⟨1, 0, true⟩], [], [1], 2⟩

/-- Two FFs sharing input signal 0 with different initial values;
both outputs are external. -/
def exSharedInputFFs : LogicList :=
  ⟨[0, 1, 2], [], [⟨1, 0, false⟩, ⟨2, 0, true⟩], [], [1, 2], 3⟩

/-- Two structurally identical LUTs feeding two FFs: LUT
deduplication unifies the FF inputs, so only a second `deduplicate`
run can merge the FFs. -/
def exDedupTwice : LogicList :=
  ⟨[0, 1, 2, 3, 4],
   [⟨1, [0], [false, false]⟩, ⟨2, [0], [false, false]⟩],
   [⟨3, 1, false⟩, ⟨4, 2, false⟩], [0], [3, 4], 5⟩

/-- A buffer chain with the downstream buffer listed first:
LUT 0 buffers signal 1 into signal 2, LUT 1 buffers signal 0 into
signal 1; the external output marks signal 2. -/
def exBufferChain : LogicList :=
  ⟨[0, 1, 2], [⟨2, [1], [false, true]⟩, ⟨1, [0], [false, true]⟩],
   [], [0], [2], 3⟩

/-- A single buffer LUT from external input 0 to external output 1. -/
def exSingleBuffer : LogicList :=
  ⟨[0, 1], [⟨1, [0], [false, true]⟩], [], [0], [1], 2⟩

/-- Wires 0–2 are the globals; the bridges (4,5), (3,4), (6,5) form a
single equivalence class {3,4,5,6}. -/
def exBridgeChain : NetList :=
  ⟨[0, 1, 2, 3, 4, 5, 6], [.bridge 4 5, .bridge 3 4, .bridge 6 5]⟩

/-- A 2×2 grid with two components on one wire. -/
def exGrid : Grid :=
  ⟨2, [[0, 1]], [[0], [0]], [0, 1, GRID_EMPTY, GRID_EMPTY], [0, 1], [1], 1⟩

/-! ## Theorems -/

/-- Helper: a row whose compatibility guard fails for every line
leaves the `eval_lut` fold at its initial value. -/
theorem evalLutGo_no_compat (lat : Nat → Lattice Bool) (inputs : List Nat)
    (lines : List (List Bool × Bool)) (r : Lattice Bool)
    (h : ∀ l ∈ lines, ((inputs.zip l.1).all fun sv => (lat sv.1).can_be sv.2) = false) :
    evalLutGo lat inputs lines r = r := by
  induction lines with
  | nil => rfl
  | cons l rest ih =>
    have hl := h l (List.mem_cons_self _ _)
    rw [evalLutGo, hl]
    simp only [Bool.false_eq_true, if_false]
    exact ih fun l' hl' => h l' (List.mem_cons_of_mem _ hl')

/-- C10: if any input signal of a LUT is UNDEF in the lattice, no
table row is compatible (`can_be` rejects every bit), so `eval_lut`
returns UNDEF. -/
theorem claim10_eval_lut_undef (lut : LUT) (lat : Nat → Lattice Bool)
    (h : ∃ s ∈ lut.inputs, lat s = Lattice.UNDEF) :
    eval_lut lut lat = Lattice.UNDEF := by
  obtain ⟨s, hs, hlat⟩ := h
  obtain ⟨i, hi, rfl⟩ := List.mem_iff_getElem.mp hs
  apply evalLutGo_no_compat
  intro l hl
  have hlen : l.1.length = lut.inputs.length := by
    simp only [LUT.lines, List.mem_map, List.mem_range] at hl
    obtain ⟨j, _, rfl⟩ := hl
    simp
  rw [List.all_eq_false]
  have hil : i < l.1.length := by omega
  have hiz : i < (lut.inputs.zip l.1).length := by simp; omega
  refine ⟨(lut.inputs[i], l.1.get ⟨i, hil⟩), ?_, ?_⟩
  · have : (lut.inputs.zip l.1).get ⟨i, hiz⟩ = (lut.inputs[i], l.1.get ⟨i, hil⟩) :=
      List.getElem_zip
    exact this ▸ List.getElem_mem _
  · simp [hlat, Lattice.can_be, Lattice.UNDEF, Lattice.is_def]

/-- C10 witness: a one-input identity LUT under the all-UNDEF lattice. -/
theorem claim10_witness :
    (∃ s ∈ (LUT.mk 1 [0] [false, true]).inputs,
      (fun _ : Nat => (Lattice.UNDEF : Lattice Bool)) s = Lattice.UNDEF) ∧
    eval_lut ⟨1, [0], [false, true]⟩ (fun _ => Lattice.UNDEF) = Lattice.UNDEF :=
  ⟨⟨0, by simp, rfl⟩,
   claim10_eval_lut_undef ⟨1, [0], [false, true]⟩ (fun _ => Lattice.UNDEF)
     ⟨0, by simp, rfl⟩⟩

/-- C9: `Lattice.merge` is the specified three-valued join: UNDEF is
a two-sided identity, def(v) ⊔ def(v) = def(v), def(v) ⊔ def(v') =
OVERDEF for v ≠ v', and OVERDEF absorbs on either side. -/
theorem claim9_lattice_merge {T : Type} [DecidableEq T] (a b : Lattice T)
    (v v' : T) (hne : v ≠ v') :
    Lattice.merge Lattice.UNDEF b = b ∧
    Lattice.merge a Lattice.UNDEF = a ∧
    Lattice.merge (Lattice.new_def v) (Lattice.new_def v) = Lattice.new_def v ∧
    Lattice.merge (Lattice.new_def v) (Lattice.new_def v') = Lattice.OVERDEF ∧
    Lattice.merge Lattice.OVERDEF b = Lattice.OVERDEF ∧
    Lattice.merge a Lattice.OVERDEF = Lattice.OVERDEF := by
  obtain ⟨ao, av⟩ := a
  obtain ⟨bo, bv⟩ := b
  refine ⟨?_, ?_, ?_, ?_, ?_, ?_⟩ <;>
    cases ao <;> cases bo <;> cases av <;> cases bv <;>
      simp_all [Lattice.merge, Lattice.UNDEF, Lattice.OVERDEF, Lattice.new_def,
        Lattice.is_undef, Lattice.is_def]

/-- C9 witness: the join table instantiated at booleans. -/
theorem claim9_witness :
    (false : Bool) ≠ true ∧
    (Lattice.merge Lattice.UNDEF (Lattice.new_def true) = Lattice.new_def true ∧
     Lattice.merge (Lattice.new_def false) Lattice.UNDEF = Lattice.new_def false ∧
     Lattice.merge (Lattice.new_def false) (Lattice.new_def false) = Lattice.new_def false ∧
     Lattice.merge (Lattice.new_def false) (Lattice.new_def true) = Lattice.OVERDEF ∧
     Lattice.merge Lattice.OVERDEF (Lattice.new_def true) = Lattice.OVERDEF ∧
     Lattice.merge (Lattice.new_def false) Lattice.OVERDEF = Lattice.OVERDEF) :=
  ⟨by decide,
   claim9_lattice_merge (Lattice.new_def false) (Lattice.new_def true) false true
     (by decide)⟩

/-- C1: simulation equivalence under optimization fails.  On
`exConstFF` (a FF initialised to 1 fed by a constant-0 LUT, output
external) the unoptimized simulation drives 1 on step 0, but
`optimize_logic` replaces the FF by a constant-0 LUT, which drives 0
on step 0.  Both runs pass `validate` (checked inside
`logic_simOutputs`). -/
theorem claim1_sim_not_preserved :
    logic_simOutputs exConstFF 1 = some [[some true]] ∧
    logic_simOutputs (optimize_logic 10 exConstFF) 1 = some [[some false]] ∧
    optimize_logic 10 exConstFF
      = ⟨[1], [⟨1, [], [false]⟩], [], [], [1], 3⟩ := by
  refine ⟨by decide, by decide, by decide⟩

/-- C2: `const_propagation` replaces a FF keyed on the lattice value
of its *input* signal, not of its output.  On `exConstFF` the dataflow
fixed point (certified below by one more `cpStep` sweep changing
nothing) gives the FF's output signal 1 the value OVERDEF — yet the
pass pushes a constant-0 LUT driving signal 1 and retargets the FF to
the fresh dummy signal 2. -/
theorem claim2_ff_replaced_despite_overdef :
    cpStep exConstFF (cpFix exConstFF) 0 = cpFix exConstFF 0 ∧
    cpStep exConstFF (cpFix exConstFF) 1 = cpFix exConstFF 1 ∧
    cpFix exConstFF 1 = Lattice.OVERDEF ∧
    const_propagation exConstFF
      = (⟨[0, 1, 2], [⟨0, [], [false]⟩, ⟨1, [], [false]⟩], [⟨2, 0, true⟩],
          [], [1], 3⟩, true) := by
  refine ⟨by decide, by decide, by decide, by decide⟩

/-- C5: `combine_connections` crashes on a three-bridge chain.  On
`exBridgeChain` the third bridge's endpoint 5 is followed one step to
4, which is itself a key of `better`, so the source's
`assert a not in better and b not in better` fails (modelled as
`none`) instead of rewriting the class {3,4,5,6} to its minimum 3. -/
theorem claim5_combine_connections_asserts :
    combine_connections exBridgeChain = none ∧
    canonPhase1 (fun a b => a < b) [(4, 5), (3, 4), (6, 5)] [] = none := by
  refine ⟨by decide, by decide⟩

/-- C6: `logic_sim` keys the initial state by the FF *input* signal
(`{ff.input: ff.init ...}`), so of two FFs sharing input signal 0 the
later one wins: on `exSharedInputFFs` the FF driving signal 1 has
initial value 0 but drives 1 on step 0.  The list passes `validate`
(checked inside `logic_simOutputs`). -/
theorem claim6_ff_init_not_driven :
    (exSharedInputFFs.ffs.getD 0 ⟨0, 0, false⟩).init = false ∧
    (exSharedInputFFs.ffs.getD 0 ⟨0, 0, false⟩).output = 1 ∧
    exSharedInputFFs.external_outputs.getD 0 0 = 1 ∧
    logic_simOutputs exSharedInputFFs 1 = some [[some true, some true]] := by
  refine ⟨by decide, by decide, by decide, by decide⟩

/-! ### C7: deduplicate run twice -/

theorem dedupFFStep_shape : DedupStepShape dedupFFStep := by
  intro st i
  unfold dedupFFStep
  cases h : st.2.1.find?
      (fun p => p.1 = (st.1.ffs.getD i ⟨0, 0, false⟩).operands_tuple) with
  | none => exact Or.inl ⟨rfl, rfl, rfl⟩
  | some p => exact Or.inr ⟨i, rfl⟩

theorem dedupLUTStep_shape : DedupStepShape dedupLUTStep := by
  intro st i
  unfold dedupLUTStep
  cases h : st.2.1.find?
      (fun p => p.1 = (st.1.luts.getD i ⟨0, [], []⟩).operands_tuple) with
  | none => exact Or.inl ⟨rfl, rfl, rfl⟩
  | some p => exact Or.inr ⟨i, rfl⟩

/-- Folding a dedup phase only ever appends to the deletion set. -/
theorem dedupFold_toDel_ext {K : Type} {step : DedupState K → Nat → DedupState K}
    (hs : DedupStepShape step) (l : List Nat) (st : DedupState K) :
    ∃ t, (l.foldl step st).2.2.1 = st.2.2.1 ++ t := by
  induction l generalizing st with
  | nil => exact ⟨[], (List.append_nil _).symm⟩
  | cons i l ih =>
    obtain ⟨t, ht⟩ := ih (step st i)
    rcases hs st i with ⟨_, h2, _⟩ | ⟨j, hj⟩
    · exact ⟨t, by rw [List.foldl_cons, ht, h2]⟩
    · exact ⟨j :: t, by rw [List.foldl_cons, ht, hj]; simp⟩

/-- A dedup phase whose deletion set did not grow never replaced
anything: the list and the replacement counter are untouched. -/
theorem dedupFold_no_delete {K : Type} {step : DedupState K → Nat → DedupState K}
    (hs : DedupStepShape step) (l : List Nat) (st : DedupState K)
    (h : (l.foldl step st).2.2.1 = st.2.2.1) :
    (l.foldl step st).1 = st.1 ∧ (l.foldl step st).2.2.2 = st.2.2.2 := by
  induction l generalizing st with
  | nil => exact ⟨rfl, rfl⟩
  | cons i l ih =>
    rw [List.foldl_cons] at h ⊢
    rcases hs st i with ⟨h1, h2, h3⟩ | ⟨j, hj⟩
    · have := ih (step st i) (by rw [h, h2])
      exact ⟨this.1.trans h1, this.2.trans h3⟩
    · exfalso
      obtain ⟨t, ht⟩ := dedupFold_toDel_ext hs l (step st i)
      rw [ht, hj] at h
      have hlen := congrArg List.length h
      simp only [List.length_append, List.length_cons, List.length_nil] at hlen
      omega

/-- The identity filter of the final deletion step. -/
theorem enum_filter_not_mem_nil {α : Type} (l : List α) :
    ((l.enum.filter fun p => p.1 ∉ ([] : List Nat)).map (·.2)) = l := by
  have : l.enum.filter (fun p => p.1 ∉ ([] : List Nat)) = l.enum :=
    List.filter_eq_self.mpr fun a _ => by simp
  rw [this, List.enum_map_snd]

/-- C7 counterexample: on `exDedupTwice` the first `deduplicate` run
merges the two identical LUTs, thereby unifying the two FFs' inputs;
the second run then still deletes a FF (index set `[1]`) and performs
two further signal replacements, so running dedup twice does not
equal running it once. -/
theorem claim7_counterexample :
    (deduplicate (deduplicate exDedupTwice).1).1 ≠ (deduplicate exDedupTwice).1 ∧
    (deduplicateFull (deduplicate exDedupTwice).1).2.2.1 = [1] ∧
    (deduplicateFull (deduplicate exDedupTwice).1).2.1 = 2 := by
  refine ⟨by decide, by decide, by decide⟩

/-- C7 amended: a `deduplicate` run that deletes no FF and no LUT has
found no duplicates, so it performs no replacements and returns the
LogicList unchanged; dedup is idempotent exactly on lists whose
second run deletes nothing. -/
theorem claim7_amended (L : LogicList)
    (hff : (deduplicateFull L).2.2.1 = [])
    (hlut : (deduplicateFull L).2.2.2 = []) :
    (deduplicateFull L).1 = L ∧ (deduplicateFull L).2.1 = 0 := by
  have hff' : (dedupPhase1 L).2.2.1 = [] := hff
  have hlut' : (dedupPhase2 L).2.2.1 = [] := hlut
  have h1 : (dedupPhase1 L).1 = L ∧ (dedupPhase1 L).2.2.2 = 0 :=
    dedupFold_no_delete dedupFFStep_shape (List.range L.ffs.length)
      (L, [], [], 0) hff'
  have h2 := dedupFold_no_delete dedupLUTStep_shape
    (List.range (dedupPhase1 L).1.luts.length)
    ((dedupPhase1 L).1, [], [], (dedupPhase1 L).2.2.2) hlut'
  have e2 : (dedupPhase2 L).1 = L := h2.1.trans h1.1
  constructor
  · show ({ (dedupPhase2 L).1 with
        ffs := ((dedupPhase2 L).1.ffs.enum.filter
          fun p => p.1 ∉ (dedupPhase1 L).2.2.1).map (·.2)
        luts := ((dedupPhase2 L).1.luts.enum.filter
          fun p => p.1 ∉ (dedupPhase2 L).2.2.1).map (·.2) } : LogicList) = L
    rw [hff', hlut', enum_filter_not_mem_nil, enum_filter_not_mem_nil, e2]
  · show (dedupPhase2 L).2.2.2 = 0
    exact h2.2.trans h1.2

/-- C7 amended, witness: a list with nothing to deduplicate. -/
theorem claim7_amended_witness :
    (deduplicateFull exConstFF).2.2.1 = [] ∧
    (deduplicateFull exConstFF).2.2.2 = [] ∧
    ((deduplicateFull exConstFF).1 = exConstFF ∧
      (deduplicateFull exConstFF).2.1 = 0) :=
  ⟨by decide, by decide, claim7_amended exConstFF (by decide) (by decide)⟩

/-! ### C4: half-perimeter wirelength cost -/

/-- C4: the per-wire cost is the half-perimeter wirelength as the
spec states it, a wire with at most one attached component costs 0,
`calc_wire_costs` is the per-wire HPWL table, and `Grid.__init__`
caches the total as the sum of the per-wire costs. -/
theorem claim4_wire_cost_hpwl (g : Grid) (wi : Nat) :
    g.wire_cost wi = g.hpwlSpec wi ∧
    ((g.wire_index_to_component_indices.getD wi []).length ≤ 1 →
      g.wire_cost wi = 0) ∧
    g.calc_wire_costs = (List.range g.numWires).map g.hpwlSpec ∧
    g.withInitCosts.curr_cost = g.withInitCosts.wire_index_to_cost.sum := by
  have main : ∀ wj, g.wire_cost wj = g.hpwlSpec wj := by
    intro wj
    unfold Grid.wire_cost Grid.wire_half_perimeter_cost Grid.hpwlSpec
    cases h : g.wire_index_to_component_indices.getD wj [] with
    | nil => simp
    | cons c cs =>
      cases cs with
      | nil => simp
      | cons c' cs' =>
        have hlen : ¬((c :: c' :: cs').length ≤ 1) := by simp
        simp only [hlen, if_false]
        have hmax : ((c :: c' :: cs').map g.compX).max?
            = some (((c' :: cs').map g.compX).foldl max (g.compX c)) := rfl
        have hmin : ((c :: c' :: cs').map g.compX).min?
            = some (((c' :: cs').map g.compX).foldl min (g.compX c)) := rfl
        have hmay : ((c :: c' :: cs').map g.compY).max?
            = some (((c' :: cs').map g.compY).foldl max (g.compY c)) := rfl
        have hmiy : ((c :: c' :: cs').map g.compY).min?
            = some (((c' :: cs').map g.compY).foldl min (g.compY c)) := rfl
        rw [hmax, hmin, hmay, hmiy]
        simp only [Option.getD_some, List.foldl_map]
  refine ⟨main wi, ?_, ?_, rfl⟩
  · intro h
    rw [main wi]
    simp only [Grid.hpwlSpec]
    rw [if_pos h]
  · unfold Grid.calc_wire_costs
    exact List.map_congr_left fun wj _ => main wj

/-- C4 witness: the two-component wire of `exGrid` and an unattached
wire index. -/
theorem claim4_witness :
    exGrid.wire_cost 0 = exGrid.hpwlSpec 0 ∧
    ((exGrid.wire_index_to_component_indices.getD 1 []).length ≤ 1 ∧
      exGrid.wire_cost 1 = 0) ∧
    exGrid.calc_wire_costs = (List.range exGrid.numWires).map exGrid.hpwlSpec :=
  ⟨(claim4_wire_cost_hpwl exGrid 0).1,
   ⟨by decide, (claim4_wire_cost_hpwl exGrid 1).2.1 (by decide)⟩,
   (claim4_wire_cost_hpwl exGrid 0).2.2.1⟩

/-! ### C8: peephole buffer removal -/

/-- Deduplicating before mapping does not change the deduplicated
image (Python set comprehensions over sets). -/
theorem dedup_map_dedup {α β : Type} [DecidableEq α] [DecidableEq β]
    (g : α → β) (w : List α) :
    (w.dedup.map g).dedup = (w.map g).dedup := by
  induction w with
  | nil => rfl
  | cons x w ih =>
    by_cases hx : x ∈ w
    · rw [List.dedup_cons_of_mem hx, List.map_cons,
        List.dedup_cons_of_mem (List.mem_map_of_mem g hx), ih]
    · rw [List.dedup_cons_of_not_mem hx, List.map_cons, List.map_cons]
      by_cases hg : g x ∈ w.map g
      · have hg' : g x ∈ w.dedup.map g := by
          obtain ⟨a, ha, hax⟩ := List.mem_map.mp hg
          exact hax ▸ List.mem_map_of_mem g (List.mem_dedup.mpr ha)
        rw [List.dedup_cons_of_mem hg', List.dedup_cons_of_mem hg, ih]
      · have hg' : g x ∉ w.dedup.map g := fun hc => by
          obtain ⟨a, ha, hax⟩ := List.mem_map.mp hc
          exact hg (hax ▸ List.mem_map_of_mem g (List.mem_dedup.mp ha))
        rw [List.dedup_cons_of_not_mem hg', List.dedup_cons_of_not_mem hg, ih]

theorem LUT.replaceSig_comp (f g : Nat → Nat) (lut : LUT) :
    LUT.replaceSig f (LUT.replaceSig g lut) = LUT.replaceSig (fun s => f (g s)) lut := by
  simp [LUT.replaceSig, List.map_map, Function.comp]

theorem FF.ff_replaceSig_comp (f g : Nat → Nat) (ff : FF) :
    FF.replaceSig f (FF.replaceSig g ff) = FF.replaceSig (fun s => f (g s)) ff := by
  simp [FF.replaceSig]

theorem LUT.replaceSig_congr {f g : Nat → Nat} (h : ∀ s, f s = g s) (lut : LUT) :
    LUT.replaceSig f lut = LUT.replaceSig g lut := by
  have h2 : lut.inputs.map f = lut.inputs.map g :=
    List.map_congr_left fun s _ => h s
  simp [LUT.replaceSig, h, h2]

theorem FF.ff_replaceSig_congr {f g : Nat → Nat} (h : ∀ s, f s = g s) (ff : FF) :
    FF.replaceSig f ff = FF.replaceSig g ff := by
  simp only [FF.replaceSig, h]

theorem LUT.replaceSig_id (lut : LUT) :
    LUT.replaceSig (fun s => s) lut = lut := by
  simp [LUT.replaceSig]

theorem FF.ff_replaceSig_id (ff : FF) :
    FF.replaceSig (fun s => s) ff = ff := by
  simp [FF.replaceSig]

theorem bufSubstOn_nil (s : Nat) : bufSubstOn [] s = s := rfl

/-- Extending the buffer set by one more buffer composes the
single-signal substitution with the substitution so far, provided no
buffer's input collides with the new buffer's output. -/
theorem bufSubstOn_step (B : List LUT) (b0 : LUT)
    (hInNe : ∀ b ∈ B ++ [b0], b.inputs.getD 0 0 ≠ b0.output) (s : Nat) :
    (if bufSubstOn B s = b0.output then b0.inputs.getD 0 0 else bufSubstOn B s)
      = bufSubstOn (B ++ [b0]) s := by
  unfold bufSubstOn
  rw [List.find?_append]
  cases hB : B.find? (fun b => b.output = s) with
  | some b =>
    have hne : b.inputs.getD 0 0 ≠ b0.output :=
      hInNe b (List.mem_append_left _ (List.mem_of_find?_eq_some hB))
    dsimp only [Option.or]
    rw [if_neg hne]
  | none =>
    dsimp only [Option.or]
    by_cases hs : b0.output = s
    · rw [List.find?_cons_of_pos _ (by simp [hs]), if_pos hs.symm]
    · rw [List.find?_cons_of_neg _ (by simp [hs]), List.find?_nil,
        if_neg (fun h => hs h.symm)]

/-- Filtering an enumeration on a property of the entries and
projecting back drops the enumeration. -/
theorem enumFrom_filter_snd {α : Type} (c : α → Bool) (l : List α) (k : Nat) :
    ((List.enumFrom k l).filter (fun q => c q.2)).map (·.2) = l.filter c := by
  induction l generalizing k with
  | nil => rfl
  | cons x l ih =>
    rw [List.enumFrom_cons, List.filter_cons, List.filter_cons]
    by_cases hc : c x
    · simp only [hc, if_true, List.map_cons, ih]
    · simp only [hc, Bool.false_eq_true, if_false, ih]

theorem filter_map_comm {α β : Type} (f : α → β) (p : β → Bool) (l : List α) :
    (l.map f).filter p = (l.filter fun a => p (f a)).map f := by
  induction l with
  | nil => rfl
  | cons x l ih =>
    rw [List.map_cons, List.filter_cons, List.filter_cons]
    by_cases hp : p (f x)
    · simp only [hp, if_true, List.map_cons, ih]
    · simp only [hp, Bool.false_eq_true, if_false, ih]

theorem buffersUpTo_succ_buf {L : LogicList} {t : Nat} (hT : t < L.luts.length)
    (hb : (L.luts[t]).table = [false, true]) :
    buffersUpTo L (t + 1) = buffersUpTo L t ++ [L.luts[t]] := by
  unfold buffersUpTo
  rw [List.take_succ, List.getElem?_eq_getElem hT]
  rw [List.filter_append]
  simp [hb]

theorem buffersUpTo_succ_not {L : LogicList} {t : Nat} (hT : t < L.luts.length)
    (hb : ¬(L.luts[t]).table = [false, true]) :
    buffersUpTo L (t + 1) = buffersUpTo L t := by
  unfold buffersUpTo
  rw [List.take_succ, List.getElem?_eq_getElem hT]
  rw [List.filter_append]
  simp [hb]

/-- The full buffer list splits at any prefix length. -/
theorem buffers_eq_upTo_append (L : LogicList) (t : Nat) :
    buffers L = buffersUpTo L t
      ++ ((L.luts.drop t).filter fun l => l.table = [false, true]) := by
  unfold buffers buffersUpTo
  rw [← List.filter_append, List.take_append_drop]

theorem mem_of_mem_buffersUpTo {L : LogicList} {t : Nat} {b : LUT}
    (h : b ∈ buffersUpTo L t) : b ∈ buffers L := by
  rw [buffers_eq_upTo_append L t]
  exact List.mem_append_left _ h

theorem getElem_mem_buffers {L : LogicList} {t : Nat} (hT : t < L.luts.length)
    (hb : (L.luts[t]).table = [false, true]) : L.luts[t] ∈ buffers L :=
  List.mem_filter.mpr ⟨L.luts.getElem_mem hT, by simp [hb]⟩

/-- Under the output-Nodup hypothesis, no buffer seen before index `t`
has the same output as the buffer at index `t`. -/
theorem buffersUpTo_find_output_none {L : LogicList} {t : Nat}
    (hOut : ((buffers L).map (·.output)).Nodup) (hT : t < L.luts.length)
    (hb : (L.luts[t]).table = [false, true]) :
    (buffersUpTo L t).find? (fun b => b.output = (L.luts[t]).output) = none := by
  rw [List.find?_eq_none]
  intro b hbmem
  simp only [decide_eq_true_eq]
  intro hout
  have hsplit := buffers_eq_upTo_append L t
  rw [hsplit, List.map_append] at hOut
  have hdisj := (List.nodup_append.mp hOut).2.2
  have hmem_r : (L.luts[t]).output
      ∈ ((L.luts.drop t).filter fun l => l.table = [false, true]).map (·.output) := by
    refine List.mem_map_of_mem _ (List.mem_filter.mpr ⟨?_, by simp [hb]⟩)
    rw [List.drop_eq_getElem_cons hT]
    exact List.mem_cons_self _ _
  exact hdisj (hout ▸ List.mem_map_of_mem _ hbmem) hmem_r

/-- One step of the `simplify` fold preserves the invariant. -/
theorem simpInv_step (L : LogicList)
    (hWf : ∀ lut ∈ L.luts, 2 ^ lut.inputs.length = lut.table.length)
    (hOut : ((buffers L).map (·.output)).Nodup)
    (hIn : ∀ b1 ∈ buffers L, ∀ b2 ∈ buffers L, b1.inputs.getD 0 0 ≠ b2.output)
    (t : Nat) (hT : t < L.luts.length)
    (st : LogicList × List Nat × Bool) (h : SimpInv L t st) :
    SimpInv L (t + 1) (simplifyStep st t) := by
  obtain ⟨hluts, hffs, hein, heout, hsig, hnext, hdel, hchg⟩ := h
  have hread : st.1.luts.getD t ⟨0, [], []⟩
      = LUT.replaceSig (bufSubstOn (buffersUpTo L t)) (L.luts[t]) := by
    rw [hluts, List.getD_eq_getElem _ _ (by simpa using hT), List.getElem_map]
  by_cases hb : (L.luts[t]).table = [false, true]
  · -- the LUT at index t is a buffer
    have hbuf : L.luts[t] ∈ buffers L := getElem_mem_buffers hT hb
    have hB1 : buffersUpTo L (t + 1) = buffersUpTo L t ++ [L.luts[t]] :=
      buffersUpTo_succ_buf hT hb
    have hInNe : ∀ b ∈ buffersUpTo L t ++ [L.luts[t]],
        b.inputs.getD 0 0 ≠ (L.luts[t]).output := by
      intro b hbm
      rcases List.mem_append.mp hbm with hbl | hbr
      · exact hIn b (mem_of_mem_buffersUpTo hbl) _ hbuf
      · rw [List.mem_singleton.mp hbr]
        exact hIn _ hbuf _ hbuf
    have houtfix : bufSubstOn (buffersUpTo L t) (L.luts[t]).output
        = (L.luts[t]).output := by
      unfold bufSubstOn
      rw [buffersUpTo_find_output_none hOut hT hb]
    -- a buffer has exactly one input
    have hlen1 : (L.luts[t]).inputs.length = 1 := by
      have := hWf _ (L.luts.getElem_mem hT)
      rw [hb] at this
      have h2 : (2 : Nat) ^ (L.luts[t]).inputs.length = 2 ^ 1 := by simpa using this
      exact Nat.pow_right_injective (le_refl 2) h2
    obtain ⟨x, hx⟩ := List.length_eq_one.mp hlen1
    have hxfix : bufSubstOn (buffersUpTo L t) x = x := by
      unfold bufSubstOn
      rw [List.find?_eq_none.mpr]
      intro b hbm
      simp only [decide_eq_true_eq]
      intro hbo
      exact hIn _ hbuf b (mem_of_mem_buffersUpTo hbm) (by rw [hx, hbo]; rfl)
    -- the two arguments of the replace_signal call
    have hold : (st.1.luts.getD t ⟨0, [], []⟩).output = (L.luts[t]).output := by
      rw [hread, LUT.replaceSig, houtfix]
    have hnew : (st.1.luts.getD t ⟨0, [], []⟩).inputs.getD 0 0 = x := by
      rw [hread, LUT.replaceSig]
      simp only [hx, List.map_cons, List.map_nil, List.getD_cons_zero]
      exact hxfix
    have hxne : x ≠ (L.luts[t]).output := by
      have := hIn _ hbuf _ hbuf
      rw [hx] at this
      exact this
    have hcond : (st.1.luts.getD t ⟨0, [], []⟩).table = [false, true] := by
      rw [hread]; exact hb
    -- the substitution made by this step, composed with the one so far
    have hσ : ∀ s,
        (if bufSubstOn (buffersUpTo L t) s = (L.luts[t]).output then x
          else bufSubstOn (buffersUpTo L t) s)
        = bufSubstOn (buffersUpTo L (t + 1)) s := by
      intro s
      rw [hB1, ← bufSubstOn_step _ _ hInNe s, hx]
      rfl
    unfold simplifyStep
    rw [if_pos hcond, hold, hnew]
    unfold LogicList.replace_signal
    rw [if_neg (fun hc => hxne hc.symm)]
    refine ⟨?_, ?_, ?_, ?_, ?_, hnext, ?_, ?_⟩
    · -- luts
      show (st.1.luts.map _) = _
      rw [hluts, List.map_map]
      refine List.map_congr_left fun lut _ => ?_
      rw [Function.comp_apply, LUT.replaceSig_comp]
      exact LUT.replaceSig_congr (fun s => hσ s) lut
    · show (st.1.ffs.map _) = _
      rw [hffs, List.map_map]
      refine List.map_congr_left fun ff _ => ?_
      rw [Function.comp_apply, FF.ff_replaceSig_comp]
      exact FF.ff_replaceSig_congr (fun s => hσ s) ff
    · show ((st.1.external_inputs.map _).dedup) = _
      rw [hein, dedup_map_dedup, List.map_map]
      refine congrArg _ (List.map_congr_left fun s _ => ?_)
      rw [Function.comp_apply]
      exact hσ s
    · show ((st.1.external_outputs.map _).dedup) = _
      rw [heout, dedup_map_dedup, List.map_map]
      refine congrArg _ (List.map_congr_left fun s _ => ?_)
      rw [Function.comp_apply]
      exact hσ s
    · show (st.1.signals.filter _) = _
      rw [hsig, List.filter_filter, hB1, List.map_append]
      refine List.filter_congr fun s _ => ?_
      by_cases h1 : s = (L.luts[t]).output <;>
        by_cases h2 : s ∈ (buffersUpTo L t).map (·.output) <;>
          simp [h1, h2]
    · show st.2.1 ++ [t] = _
      rw [hdel, List.range_succ, List.filter_append]
      have hpt : (L.luts.getD t ⟨0, [], []⟩).table = [false, true] := by
        rw [List.getD_eq_getElem _ _ hT]; exact hb
      have : List.filter
          (fun i => decide ((L.luts.getD i ⟨0, [], []⟩).table = [false, true])) [t]
          = [t] := by
        simp
        simpa using hpt
      rw [this]
    · show true = _
      rw [hB1]
      simp
  · -- not a buffer: the step is the identity
    have hcond : ¬((st.1.luts.getD t ⟨0, [], []⟩).table = [false, true]) := by
      rw [hread]; exact hb
    have hB1 : buffersUpTo L (t + 1) = buffersUpTo L t :=
      buffersUpTo_succ_not hT hb
    unfold simplifyStep
    rw [if_neg hcond]
    unfold SimpInv
    rw [hB1]
    refine ⟨hluts, hffs, hein, heout, hsig, hnext, ?_, hchg⟩
    rw [hdel, List.range_succ, List.filter_append]
    have hpt : ¬((L.luts.getD t ⟨0, [], []⟩).table = [false, true]) := by
      rw [List.getD_eq_getElem _ _ hT]; exact hb
    have : List.filter
        (fun i => decide ((L.luts.getD i ⟨0, [], []⟩).table = [false, true])) [t]
        = [] := by
      simp
      simpa using hpt
    rw [this, List.append_nil]

/-- The `simplify` invariant holds initially. -/
theorem simpInv_zero (L : LogicList)
    (hNin : L.external_inputs.Nodup) (hNout : L.external_outputs.Nodup) :
    SimpInv L 0 (L, [], false) := by
  have hid : ∀ s, bufSubstOn (buffersUpTo L 0) s = s := fun s => rfl
  refine ⟨?_, ?_, ?_, ?_, ?_, rfl, rfl, rfl⟩
  · show L.luts = _
    symm
    have : ∀ lut ∈ L.luts,
        LUT.replaceSig (bufSubstOn (buffersUpTo L 0)) lut = lut :=
      fun lut _ => (LUT.replaceSig_congr hid lut).trans (LUT.replaceSig_id lut)
    rw [List.map_congr_left this]
    simp
  · show L.ffs = _
    symm
    have : ∀ ff ∈ L.ffs,
        FF.replaceSig (bufSubstOn (buffersUpTo L 0)) ff = ff :=
      fun ff _ => (FF.ff_replaceSig_congr hid ff).trans (FF.ff_replaceSig_id ff)
    rw [List.map_congr_left this]
    simp
  · show L.external_inputs = _
    symm
    rw [List.map_congr_left fun s _ => hid s]
    simp [List.dedup_eq_self.mpr hNin]
  · show L.external_outputs = _
    symm
    rw [List.map_congr_left fun s _ => hid s]
    simp [List.dedup_eq_self.mpr hNout]
  · show L.signals = _
    symm
    exact List.filter_eq_self.mpr fun s _ => by simp [buffersUpTo]

/-- The `simplify` invariant holds after any prefix of the fold. -/
theorem simpInv_fold (L : LogicList)
    (hWf : ∀ lut ∈ L.luts, 2 ^ lut.inputs.length = lut.table.length)
    (hOut : ((buffers L).map (·.output)).Nodup)
    (hIn : ∀ b1 ∈ buffers L, ∀ b2 ∈ buffers L, b1.inputs.getD 0 0 ≠ b2.output)
    (hNin : L.external_inputs.Nodup) (hNout : L.external_outputs.Nodup) :
    ∀ t, t ≤ L.luts.length →
      SimpInv L t ((List.range t).foldl simplifyStep (L, [], false)) := by
  intro t
  induction t with
  | zero => exact fun _ => simpInv_zero L hNin hNout
  | succ t ih =>
    intro ht
    rw [List.range_succ, List.foldl_append, List.foldl_cons, List.foldl_nil]
    exact simpInv_step L hWf hOut hIn t (by omega) _ (ih (by omega))

/-- C8 counterexample: on `exBufferChain` the buffer LUT driving the
external output (table `[false, true]`, input signal 1, output signal
2) is removed, but because its input 1 is itself the output of a
buffer processed later, the external reference to 2 ends up at the
chain root 0 — not at the LUT's input 1 — and signal 1 is deleted
rather than kept. -/
theorem claim8_counterexample :
    (exBufferChain.luts.getD 0 ⟨0, [], []⟩).table = [false, true] ∧
    (exBufferChain.luts.getD 0 ⟨0, [], []⟩).inputs = [1] ∧
    (exBufferChain.luts.getD 0 ⟨0, [], []⟩).output = 2 ∧
    exBufferChain.external_outputs = [2] ∧
    (simplify exBufferChain).1.external_outputs = [0] ∧
    (simplify exBufferChain).1.signals = [0] := by
  refine ⟨by decide, by decide, by decide, by decide, by decide, by decide⟩

/-- C8 amended: `simplify` removes exactly the LUTs with table
`[false, true]`; provided the tables are well-formed, the buffers'
outputs are pairwise distinct, no buffer's input is a buffer's output,
and the external marker sets are duplicate-free, every reference to a
removed LUT's output (in LUT inputs and outputs, FF inputs and
outputs, and external markers) is rewritten to that LUT's input
signal, the removed outputs are dropped from the signal list (the
inputs are kept), and the pass reports a change iff a buffer
existed. -/
theorem claim8_amended (L : LogicList)
    (hWf : ∀ lut ∈ L.luts, 2 ^ lut.inputs.length = lut.table.length)
    (hOut : ((buffers L).map (·.output)).Nodup)
    (hIn : ∀ b1 ∈ buffers L, ∀ b2 ∈ buffers L, b1.inputs.getD 0 0 ≠ b2.output)
    (hNin : L.external_inputs.Nodup) (hNout : L.external_outputs.Nodup) :
    (simplify L).1.luts
      = (L.luts.filter fun l => ¬(l.table = [false, true])).map
          (LUT.replaceSig (bufSubstOn (buffers L))) ∧
    (simplify L).1.ffs = L.ffs.map (FF.replaceSig (bufSubstOn (buffers L))) ∧
    (simplify L).1.external_inputs
      = (L.external_inputs.map (bufSubstOn (buffers L))).dedup ∧
    (simplify L).1.external_outputs
      = (L.external_outputs.map (bufSubstOn (buffers L))).dedup ∧
    (simplify L).1.signals
      = L.signals.filter (fun s => s ∉ (buffers L).map (·.output)) ∧
    (simplify L).2 = !(buffers L).isEmpty := by
  have hfull : buffersUpTo L L.luts.length = buffers L := by
    unfold buffersUpTo buffers
    rw [List.take_length]
  have hInv := simpInv_fold L hWf hOut hIn hNin hNout L.luts.length (le_refl _)
  unfold SimpInv at hInv
  rw [hfull] at hInv
  obtain ⟨hluts, hffs, hein, heout, hsig, _, hdel, hchg⟩ := hInv
  refine ⟨?_, hffs, hein, heout, hsig, hchg⟩
  -- the final filter removes exactly the buffer indices
  show ((((List.range L.luts.length).foldl simplifyStep (L, [], false)).1.luts.enum.filter
      fun p => p.1 ∉ ((List.range L.luts.length).foldl simplifyStep (L, [], false)).2.1).map (·.2)) = _
  rw [hluts, hdel]
  have hpred : ∀ q ∈ (L.luts.map (LUT.replaceSig (bufSubstOn (buffers L)))).enum,
      (decide (q.1 ∉ (List.range L.luts.length).filter
        (fun i => decide ((L.luts.getD i ⟨0, [], []⟩).table = [false, true]))))
      = (fun r : Nat × LUT => decide (¬(r.2.table = [false, true]))) q := by
    intro q hq
    obtain ⟨j, hj, hget⟩ := List.mem_iff_getElem.mp hq
    rw [List.getElem_enum] at hget
    obtain rfl := hget
    have hjlen : j < L.luts.length := by simpa using hj
    have hjm : j < (L.luts.map (LUT.replaceSig (bufSubstOn (buffers L)))).length := by
      simpa using hjlen
    have htab : ((L.luts.map (LUT.replaceSig (bufSubstOn (buffers L)))).get ⟨j, hjm⟩).table
        = (L.luts[j]).table := by
      rw [List.get_eq_getElem, List.getElem_map]
      exact rfl
    have hgd : (L.luts.getD j ⟨0, [], []⟩).table = (L.luts[j]).table := by
      rw [List.getD_eq_getElem _ _ hjlen]
    have hrt : (LUT.replaceSig (bufSubstOn (buffers L)) (L.luts[j])).table
        = (L.luts[j]).table := rfl
    by_cases hbt : (L.luts[j]).table = [false, true] <;>
      simp [List.mem_filter, List.mem_range, hjlen, hgd, htab, hrt, hbt]
  rw [List.filter_congr hpred]
  rw [show (L.luts.map (LUT.replaceSig (bufSubstOn (buffers L)))).enum
      = List.enumFrom 0 (L.luts.map (LUT.replaceSig (bufSubstOn (buffers L)))) from rfl]
  have h1 : ((List.enumFrom 0 (L.luts.map (LUT.replaceSig (bufSubstOn (buffers L))))).filter
      (fun r => decide ¬(r.2.table = [false, true]))).map (·.2)
      = (L.luts.map (LUT.replaceSig (bufSubstOn (buffers L)))).filter
          (fun lut => decide ¬(lut.table = [false, true])) :=
    enumFrom_filter_snd (fun lut : LUT => decide ¬(lut.table = [false, true]))
      (L.luts.map (LUT.replaceSig (bufSubstOn (buffers L)))) 0
  rw [h1, filter_map_comm]
  refine congrArg _ (List.filter_congr fun lut _ => ?_)
  rfl

/-- C8 amended, witness: a single well-formed buffer LUT feeding the
external output. -/
theorem claim8_amended_witness :
    (∀ lut ∈ exSingleBuffer.luts, 2 ^ lut.inputs.length = lut.table.length) ∧
    ((buffers exSingleBuffer).map (·.output)).Nodup ∧
    (∀ b1 ∈ buffers exSingleBuffer, ∀ b2 ∈ buffers exSingleBuffer,
      b1.inputs.getD 0 0 ≠ b2.output) ∧
    exSingleBuffer.external_inputs.Nodup ∧
    exSingleBuffer.external_outputs.Nodup ∧
    ((simplify exSingleBuffer).1.luts
      = (exSingleBuffer.luts.filter fun l => ¬(l.table = [false, true])).map
          (LUT.replaceSig (bufSubstOn (buffers exSingleBuffer))) ∧
     (simplify exSingleBuffer).1.ffs
      = exSingleBuffer.ffs.map (FF.replaceSig (bufSubstOn (buffers exSingleBuffer))) ∧
     (simplify exSingleBuffer).1.external_inputs
      = (exSingleBuffer.external_inputs.map (bufSubstOn (buffers exSingleBuffer))).dedup ∧
     (simplify exSingleBuffer).1.external_outputs
      = (exSingleBuffer.external_outputs.map (bufSubstOn (buffers exSingleBuffer))).dedup ∧
     (simplify exSingleBuffer).1.signals
      = exSingleBuffer.signals.filter
          (fun s => s ∉ (buffers exSingleBuffer).map (·.output)) ∧
     (simplify exSingleBuffer).2 = !(buffers exSingleBuffer).isEmpty) :=
  ⟨by decide, by decide, by decide, by decide, by decide,
   claim8_amended exSingleBuffer (by decide) (by decide) (by decide)
     (by decide) (by decide)⟩

/-! ### C3: the placement invariant through `opt_step` -/

theorem getD_set_self {α : Type} (l : List α) (i : Nat) (v d : α)
    (h : i < l.length) : (l.set i v).getD i d = v := by
  rw [List.getD_eq_getElem _ _ (by simpa using h)]
  exact List.getElem_set_self _

theorem getD_set_ne {α : Type} (l : List α) {i j : Nat} (v d : α)
    (h : i ≠ j) : (l.set i v).getD j d = l.getD j d := by
  by_cases hj : j < l.length
  · rw [List.getD_eq_getElem _ _ (by simpa using hj), List.getD_eq_getElem _ _ hj]
    exact List.getElem_set_ne h _
  · rw [List.getD_eq_default _ _ (by simpa using Nat.le_of_not_lt hj),
      List.getD_eq_default _ _ (Nat.le_of_not_lt hj)]

theorem sum_set_int (l : List Int) (i : Nat) (v : Int) (h : i < l.length) :
    (l.set i v).sum = l.sum - l.getD i 0 + v := by
  induction l generalizing i with
  | nil => simp at h
  | cons x l ih =>
    cases i with
    | zero => simp [List.getD_cons_zero]; ring
    | succ i =>
      have hi : i < l.length := by simpa using h
      simp only [List.set_cons_succ, List.sum_cons, List.getD_cons_succ, ih i hi]
      ring

/-- Setting a batch of entries with distinct in-range keys: each key
gets its value, other entries and the length are unchanged, and the
sum shifts by the sum of the differences. -/
theorem foldl_set_spec (pairs : List (Nat × Int)) (l : List Int)
    (hnodup : (pairs.map (·.1)).Nodup) (hlt : ∀ p ∈ pairs, p.1 < l.length) :
    (pairs.foldl (fun acc p => acc.set p.1 p.2) l).length = l.length ∧
    (∀ p ∈ pairs,
      (pairs.foldl (fun acc p => acc.set p.1 p.2) l).getD p.1 0 = p.2) ∧
    (∀ j, j ∉ pairs.map (·.1) →
      (pairs.foldl (fun acc p => acc.set p.1 p.2) l).getD j 0 = l.getD j 0) ∧
    (pairs.foldl (fun acc p => acc.set p.1 p.2) l).sum
      = l.sum + (pairs.map (fun p => p.2 - l.getD p.1 0)).sum := by
  induction pairs generalizing l with
  | nil => exact ⟨rfl, by simp, fun j _ => rfl, by simp⟩
  | cons p rest ih =>
    have hp : p.1 < l.length := hlt p (List.mem_cons_self _ _)
    have hnd : (rest.map (·.1)).Nodup := (List.nodup_cons.mp hnodup).2
    have hpn : p.1 ∉ rest.map (·.1) := (List.nodup_cons.mp hnodup).1
    have hlt' : ∀ q ∈ rest, q.1 < (l.set p.1 p.2).length := by
      intro q hq
      rw [List.length_set]
      exact hlt q (List.mem_cons_of_mem _ hq)
    obtain ⟨ihlen, ihset, ihother, ihsum⟩ := ih (l.set p.1 p.2) hnd hlt'
    rw [List.foldl_cons]
    refine ⟨by rw [ihlen, List.length_set], ?_, ?_, ?_⟩
    · intro q hq
      rcases List.mem_cons.mp hq with rfl | hq'
      · rw [ihother q.1 hpn, getD_set_self _ _ _ _ hp]
      · exact ihset q hq'
    · intro j hj
      have hj1 : j ∉ rest.map (·.1) := fun hc => hj (List.mem_cons_of_mem _ hc)
      have hj2 : p.1 ≠ j := fun hc => hj (hc ▸ List.mem_cons_self _ _)
      rw [ihother j hj1, getD_set_ne _ _ _ hj2]
    · rw [ihsum, sum_set_int _ _ _ hp]
      have : (rest.map fun q => q.2 - (l.set p.1 p.2).getD q.1 0)
          = rest.map fun q => q.2 - l.getD q.1 0 := by
        refine List.map_congr_left fun q hq => ?_
        have : p.1 ≠ q.1 := fun hc => hpn (hc ▸ List.mem_map_of_mem _ hq)
        rw [getD_set_ne _ _ _ this]
      rw [this]
      simp only [List.map_cons, List.sum_cons]
      ring

/-- Generic fold congruence over the members of a list. -/
theorem foldl_congr_mem {α β : Type} (l : List α) (f f' : β → α → β) (b : β)
    (h : ∀ x ∈ l, ∀ acc, f acc x = f' acc x) : l.foldl f b = l.foldl f' b := by
  induction l generalizing b with
  | nil => rfl
  | cons x l ih =>
    rw [List.foldl_cons, List.foldl_cons, h x (List.mem_cons_self _ _) b]
    exact ih _ fun y hy acc => h y (List.mem_cons_of_mem _ hy) acc

/-- The cost of a wire depends only on the positions of its attached
components (and the static tables). -/
theorem wire_cost_congr (g g' : Grid)
    (hw : g'.wire_index_to_component_indices = g.wire_index_to_component_indices)
    (hs : g'.grid_size = g.grid_size) (wi : Nat)
    (hpos : ∀ ci ∈ g.wire_index_to_component_indices.getD wi [],
      g'.component_to_grid_pos.getD ci 0 = g.component_to_grid_pos.getD ci 0) :
    g'.wire_cost wi = g.wire_cost wi := by
  have hxy : ∀ ci ∈ g.wire_index_to_component_indices.getD wi [],
      g'.compX ci = g.compX ci ∧ g'.compY ci = g.compY ci := by
    intro ci hci
    unfold Grid.compX Grid.compY
    rw [hpos ci hci, hs]
    exact ⟨rfl, rfl⟩
  unfold Grid.wire_cost Grid.wire_half_perimeter_cost
  rw [hw]
  cases hl : g.wire_index_to_component_indices.getD wi [] with
  | nil => rfl
  | cons c cs =>
    cases cs with
    | nil => rfl
    | cons c' cs' =>
      have hmem : ∀ x ∈ c :: c' :: cs', x ∈ g.wire_index_to_component_indices.getD wi [] := by
        rw [hl]; exact fun x hx => hx
      have hc := hxy c (hmem c (List.mem_cons_self _ _))
      have hfx : ∀ (m : Nat → Nat → Nat),
          (c' :: cs').foldl (fun a ci => m a (g'.compX ci)) (g'.compX c)
            = (c' :: cs').foldl (fun a ci => m a (g.compX ci)) (g.compX c) := by
        intro m
        rw [hc.1]
        exact foldl_congr_mem _ _ _ _ fun x hx acc => by
          rw [(hxy x (hmem x (List.mem_cons_of_mem _ hx))).1]
      have hfy : ∀ (m : Nat → Nat → Nat),
          (c' :: cs').foldl (fun a ci => m a (g'.compY ci)) (g'.compY c)
            = (c' :: cs').foldl (fun a ci => m a (g.compY ci)) (g.compY c) := by
        intro m
        rw [hc.2]
        exact foldl_congr_mem _ _ _ _ fun x hx acc => by
          rw [(hxy x (hmem x (List.mem_cons_of_mem _ hx))).2]
      dsimp only
      rw [hfx min, hfx max, hfy min, hfy max]

/-- Unpacking a successful `swap_grid_cells_leave_cost`. -/
theorem swap_eq {g : Grid} {ai bi : Nat} {g1 : Grid}
    (hsw : g.swap_grid_cells_leave_cost ai bi = some g1) :
    ai ≠ bi ∧
    g.grid.getD ai GRID_EMPTY ≠ g.grid.getD bi GRID_EMPTY ∧
    g1 = { g with
      grid := (g.grid.set ai (g.grid.getD bi GRID_EMPTY)).set bi
        (g.grid.getD ai GRID_EMPTY)
      component_to_grid_pos :=
        (if g.grid.getD bi GRID_EMPTY ≠ GRID_EMPTY
          then (if g.grid.getD ai GRID_EMPTY ≠ GRID_EMPTY
            then g.component_to_grid_pos.set (g.grid.getD ai GRID_EMPTY).toNat bi
            else g.component_to_grid_pos).set (g.grid.getD bi GRID_EMPTY).toNat ai
          else (if g.grid.getD ai GRID_EMPTY ≠ GRID_EMPTY
            then g.component_to_grid_pos.set (g.grid.getD ai GRID_EMPTY).toNat bi
            else g.component_to_grid_pos)) } := by
  simp only [Grid.swap_grid_cells_leave_cost] at hsw
  split at hsw
  · exact absurd hsw (by simp)
  next hne =>
    split at hsw
    · exact absurd hsw (by simp)
    next hcc =>
      refine ⟨hne, hcc, ?_⟩
      exact (Option.some.injEq _ _ ▸ hsw).symm

/-- A non-empty grid cell holds a valid component index whose recorded
position is that cell. -/
theorem cell_comp (g : Grid) (hP : g.PosInv) {gi : Nat} (hgi : gi < g.grid_area)
    (hne : g.grid.getD gi GRID_EMPTY ≠ GRID_EMPTY) :
    (g.grid.getD gi GRID_EMPTY).toNat < g.numComponents ∧
    g.component_to_grid_pos.getD (g.grid.getD gi GRID_EMPTY).toNat 0 = gi ∧
    (((g.grid.getD gi GRID_EMPTY).toNat : Int)) = g.grid.getD gi GRID_EMPTY := by
  obtain ⟨hlen, hplen, hpos, hempty⟩ := hP
  by_cases hex : ∀ ci, ci < g.numComponents → g.component_to_grid_pos.getD ci 0 ≠ gi
  · exact absurd (hempty gi hgi hex) hne
  · push_neg at hex
    obtain ⟨ci, hci, hpci⟩ := hex
    have h2 := (hpos ci hci).2
    rw [hpci] at h2
    rw [h2]
    refine ⟨by simpa using hci, ?_, by simp⟩
    simpa using hpci

theorem natCast_ne_empty (ci : Nat) : (ci : Int) ≠ GRID_EMPTY := by
  intro h
  have := Int.natCast_nonneg ci
  rw [h] at this
  norm_num [GRID_EMPTY] at this

/-- A successful cell swap preserves the positional invariant, and the
positions of components other than the two (possibly empty) occupants
are untouched. -/
theorem swap_posInv (g : Grid) (hP : g.PosInv) {ai bi : Nat}
    (hai : ai < g.grid_area) (hbi : bi < g.grid_area) {g1 : Grid}
    (hsw : g.swap_grid_cells_leave_cost ai bi = some g1) :
    g1.PosInv ∧
    (∀ ci,
      (g.grid.getD ai GRID_EMPTY = GRID_EMPTY ∨ ci ≠ (g.grid.getD ai GRID_EMPTY).toNat) →
      (g.grid.getD bi GRID_EMPTY = GRID_EMPTY ∨ ci ≠ (g.grid.getD bi GRID_EMPTY).toNat) →
      g1.component_to_grid_pos.getD ci 0 = g.component_to_grid_pos.getD ci 0) := by
  obtain ⟨hne, hcc, hg1⟩ := swap_eq hsw
  obtain ⟨hlen, hplen, hpos, hempty⟩ := hP
  subst hg1
  have hailen : ai < g.grid.length := by rw [hlen]; exact hai
  have hbilen : bi < g.grid.length := by rw [hlen]; exact hbi
  -- grid reads after the swap
  have hq1 : ((g.grid.set ai (g.grid.getD bi GRID_EMPTY)).set bi
      (g.grid.getD ai GRID_EMPTY)).getD ai GRID_EMPTY = g.grid.getD bi GRID_EMPTY := by
    rw [getD_set_ne _ _ _ (Ne.symm hne), getD_set_self _ _ _ _ hailen]
  have hq2 : ((g.grid.set ai (g.grid.getD bi GRID_EMPTY)).set bi
      (g.grid.getD ai GRID_EMPTY)).getD bi GRID_EMPTY = g.grid.getD ai GRID_EMPTY := by
    rw [getD_set_self _ _ _ _ (by simpa using hbilen)]
  have hq3 : ∀ gi, gi ≠ ai → gi ≠ bi →
      ((g.grid.set ai (g.grid.getD bi GRID_EMPTY)).set bi
        (g.grid.getD ai GRID_EMPTY)).getD gi GRID_EMPTY = g.grid.getD gi GRID_EMPTY := by
    intro gi h1 h2
    rw [getD_set_ne _ _ _ (fun hc => h2 hc.symm), getD_set_ne _ _ _ (fun hc => h1 hc.symm)]
  -- the specs of the two occupants
  have hcaS := fun h => cell_comp g ⟨hlen, hplen, hpos, hempty⟩ hai h
  have hcbS := fun h => cell_comp g ⟨hlen, hplen, hpos, hempty⟩ hbi h
  have hdist : g.grid.getD ai GRID_EMPTY ≠ GRID_EMPTY →
      g.grid.getD bi GRID_EMPTY ≠ GRID_EMPTY →
      (g.grid.getD ai GRID_EMPTY).toNat ≠ (g.grid.getD bi GRID_EMPTY).toNat := by
    intro h1 h2 hc
    apply hcc
    rw [← (hcaS h1).2.2, ← (hcbS h2).2.2, hc]
  -- the updated position table
  have plen1 :
      (if g.grid.getD bi GRID_EMPTY ≠ GRID_EMPTY
        then (if g.grid.getD ai GRID_EMPTY ≠ GRID_EMPTY
          then g.component_to_grid_pos.set (g.grid.getD ai GRID_EMPTY).toNat bi
          else g.component_to_grid_pos).set (g.grid.getD bi GRID_EMPTY).toNat ai
        else (if g.grid.getD ai GRID_EMPTY ≠ GRID_EMPTY
          then g.component_to_grid_pos.set (g.grid.getD ai GRID_EMPTY).toNat bi
          else g.component_to_grid_pos)).length = g.component_to_grid_pos.length := by
    split <;> split <;> simp
  have p3 : ∀ ci,
      (g.grid.getD ai GRID_EMPTY = GRID_EMPTY ∨ ci ≠ (g.grid.getD ai GRID_EMPTY).toNat) →
      (g.grid.getD bi GRID_EMPTY = GRID_EMPTY ∨ ci ≠ (g.grid.getD bi GRID_EMPTY).toNat) →
      (if g.grid.getD bi GRID_EMPTY ≠ GRID_EMPTY
        then (if g.grid.getD ai GRID_EMPTY ≠ GRID_EMPTY
          then g.component_to_grid_pos.set (g.grid.getD ai GRID_EMPTY).toNat bi
          else g.component_to_grid_pos).set (g.grid.getD bi GRID_EMPTY).toNat ai
        else (if g.grid.getD ai GRID_EMPTY ≠ GRID_EMPTY
          then g.component_to_grid_pos.set (g.grid.getD ai GRID_EMPTY).toNat bi
          else g.component_to_grid_pos)).getD ci 0
        = g.component_to_grid_pos.getD ci 0 := by
    intro ci h1 h2
    have hinner : (if g.grid.getD ai GRID_EMPTY ≠ GRID_EMPTY
        then g.component_to_grid_pos.set (g.grid.getD ai GRID_EMPTY).toNat bi
        else g.component_to_grid_pos).getD ci 0 = g.component_to_grid_pos.getD ci 0 := by
      split
      · next hca =>
        rcases h1 with hca' | hci
        · exact absurd hca' hca
        · exact getD_set_ne _ _ _ (fun hc => hci hc.symm)
      · rfl
    split
    · next hcb =>
      rcases h2 with hcb' | hci
      · exact absurd hcb' hcb
      · rw [getD_set_ne _ _ _ (fun hc => hci hc.symm)]
        exact hinner
    · exact hinner
  have p1 : g.grid.getD ai GRID_EMPTY ≠ GRID_EMPTY →
      (if g.grid.getD bi GRID_EMPTY ≠ GRID_EMPTY
        then (if g.grid.getD ai GRID_EMPTY ≠ GRID_EMPTY
          then g.component_to_grid_pos.set (g.grid.getD ai GRID_EMPTY).toNat bi
          else g.component_to_grid_pos).set (g.grid.getD bi GRID_EMPTY).toNat ai
        else (if g.grid.getD ai GRID_EMPTY ≠ GRID_EMPTY
          then g.component_to_grid_pos.set (g.grid.getD ai GRID_EMPTY).toNat bi
          else g.component_to_grid_pos)).getD (g.grid.getD ai GRID_EMPTY).toNat 0
        = bi := by
    intro hca
    by_cases hcb : g.grid.getD bi GRID_EMPTY ≠ GRID_EMPTY
    · rw [if_pos hcb, getD_set_ne _ _ _ (fun hc => hdist hca hcb hc.symm), if_pos hca]
      exact getD_set_self _ _ _ _ (by rw [hplen]; exact (hcaS hca).1)
    · rw [if_neg hcb, if_pos hca]
      exact getD_set_self _ _ _ _ (by rw [hplen]; exact (hcaS hca).1)
  have p2 : g.grid.getD bi GRID_EMPTY ≠ GRID_EMPTY →
      (if g.grid.getD bi GRID_EMPTY ≠ GRID_EMPTY
        then (if g.grid.getD ai GRID_EMPTY ≠ GRID_EMPTY
          then g.component_to_grid_pos.set (g.grid.getD ai GRID_EMPTY).toNat bi
          else g.component_to_grid_pos).set (g.grid.getD bi GRID_EMPTY).toNat ai
        else (if g.grid.getD ai GRID_EMPTY ≠ GRID_EMPTY
          then g.component_to_grid_pos.set (g.grid.getD ai GRID_EMPTY).toNat bi
          else g.component_to_grid_pos)).getD (g.grid.getD bi GRID_EMPTY).toNat 0
        = ai := by
    intro hcb
    rw [if_pos hcb]
    refine getD_set_self _ _ _ _ ?_
    split
    · rw [List.length_set, hplen]; exact (hcbS hcb).1
    · rw [hplen]; exact (hcbS hcb).1
  refine ⟨⟨by simpa using hlen, by rw [plen1]; exact hplen, ?_, ?_⟩, p3⟩
  · -- every component's recorded position holds it
    intro ci hci
    by_cases hc1 : g.grid.getD ai GRID_EMPTY ≠ GRID_EMPTY
        ∧ ci = (g.grid.getD ai GRID_EMPTY).toNat
    · obtain ⟨hca, rfl⟩ := hc1
      rw [p1 hca]
      exact ⟨hbi, by rw [hq2]; exact (hcaS hca).2.2.symm⟩
    · by_cases hc2 : g.grid.getD bi GRID_EMPTY ≠ GRID_EMPTY
          ∧ ci = (g.grid.getD bi GRID_EMPTY).toNat
      · obtain ⟨hcb, rfl⟩ := hc2
        rw [p2 hcb]
        exact ⟨hai, by rw [hq1]; exact (hcbS hcb).2.2.symm⟩
      · have h1 : g.grid.getD ai GRID_EMPTY = GRID_EMPTY
            ∨ ci ≠ (g.grid.getD ai GRID_EMPTY).toNat := by
          by_cases hca : g.grid.getD ai GRID_EMPTY = GRID_EMPTY
          · exact Or.inl hca
          · exact Or.inr fun hc => hc1 ⟨hca, hc⟩
        have h2 : g.grid.getD bi GRID_EMPTY = GRID_EMPTY
            ∨ ci ≠ (g.grid.getD bi GRID_EMPTY).toNat := by
          by_cases hcb : g.grid.getD bi GRID_EMPTY = GRID_EMPTY
          · exact Or.inl hcb
          · exact Or.inr fun hc => hc2 ⟨hcb, hc⟩
        rw [p3 ci h1 h2]
        have hbase := hpos ci (by simpa using hci)
        refine ⟨hbase.1, ?_⟩
        have hpa : g.component_to_grid_pos.getD ci 0 ≠ ai := by
          intro hc
          have : g.grid.getD ai GRID_EMPTY = (ci : Int) := by rw [← hc]; exact hbase.2
          rcases h1 with he | hn
          · exact natCast_ne_empty ci (by rw [← this, he])
          · exact hn (by rw [this]; simp)
        have hpb : g.component_to_grid_pos.getD ci 0 ≠ bi := by
          intro hc
          have : g.grid.getD bi GRID_EMPTY = (ci : Int) := by rw [← hc]; exact hbase.2
          rcases h2 with he | hn
          · exact natCast_ne_empty ci (by rw [← this, he])
          · exact hn (by rw [this]; simp)
        rw [hq3 _ hpa hpb]
        exact hbase.2
  · -- cells outside the recorded positions are empty
    intro gi hgi hno
    have hno' := fun ci hci => hno ci (by simpa using hci)
    by_cases hgi_a : gi = ai
    · subst hgi_a
      by_cases hcb : g.grid.getD bi GRID_EMPTY = GRID_EMPTY
      · rw [hq1, hcb]
      · exact absurd (p2 hcb) (hno' _ (hcbS hcb).1)
    · by_cases hgi_b : gi = bi
      · subst hgi_b
        by_cases hca : g.grid.getD ai GRID_EMPTY = GRID_EMPTY
        · rw [hq2, hca]
        · exact absurd (p1 hca) (hno' _ (hcaS hca).1)
      · rw [hq3 _ hgi_a hgi_b]
        refine hempty gi (by simpa using hgi) ?_
        intro ci hci hc
        by_cases hc1 : g.grid.getD ai GRID_EMPTY ≠ GRID_EMPTY
            ∧ ci = (g.grid.getD ai GRID_EMPTY).toNat
        · obtain ⟨hca, rfl⟩ := hc1
          exact hgi_a (by rw [← hc, (hcaS hca).2.1])
        · by_cases hc2 : g.grid.getD bi GRID_EMPTY ≠ GRID_EMPTY
              ∧ ci = (g.grid.getD bi GRID_EMPTY).toNat
          · obtain ⟨hcb, rfl⟩ := hc2
            exact hgi_b (by rw [← hc, (hcbS hcb).2.1])
          · have h1 : g.grid.getD ai GRID_EMPTY = GRID_EMPTY
                ∨ ci ≠ (g.grid.getD ai GRID_EMPTY).toNat := by
              by_cases hca : g.grid.getD ai GRID_EMPTY = GRID_EMPTY
              · exact Or.inl hca
              · exact Or.inr fun hcx => hc1 ⟨hca, hcx⟩
            have h2 : g.grid.getD bi GRID_EMPTY = GRID_EMPTY
                ∨ ci ≠ (g.grid.getD bi GRID_EMPTY).toNat := by
              by_cases hcb : g.grid.getD bi GRID_EMPTY = GRID_EMPTY
              · exact Or.inl hcb
              · exact Or.inr fun hcx => hc2 ⟨hcb, hcx⟩
            exact hno' ci hci (by rw [p3 ci h1 h2]; exact hc)

theorem list_ext_getD {α : Type} (l1 l2 : List α) (d : α) (hlen : l1.length = l2.length)
    (h : ∀ i, i < l1.length → l1.getD i d = l2.getD i d) : l1 = l2 := by
  apply List.ext_getElem hlen
  intro i h1 h2
  have := h i h1
  rwa [List.getD_eq_getElem _ _ h1, List.getD_eq_getElem _ _ h2] at this

theorem length_if_set {α : Type} (c : Prop) [Decidable c] (l : List α) (i : Nat) (v : α) :
    (if c then l.set i v else l).length = l.length := by
  split <;> simp

/-- Undoing a swap by calling `swap_grid_cells_leave_cost` again
restores the original grid state. -/
theorem swap_swap (g : Grid) (hP : g.PosInv) {ai bi : Nat}
    (hai : ai < g.grid_area) (hbi : bi < g.grid_area) {g1 : Grid}
    (hsw : g.swap_grid_cells_leave_cost ai bi = some g1) :
    g1.swap_grid_cells_leave_cost ai bi = some g := by
  have hp3 := (swap_posInv g hP hai hbi hsw).2
  obtain ⟨hne, hcc, hg1⟩ := swap_eq hsw
  obtain ⟨hlen, hplen, hpos, hempty⟩ := hP
  have hcaS := fun h => cell_comp g ⟨hlen, hplen, hpos, hempty⟩ hai h
  have hcbS := fun h => cell_comp g ⟨hlen, hplen, hpos, hempty⟩ hbi h
  have hdist : g.grid.getD ai GRID_EMPTY ≠ GRID_EMPTY →
      g.grid.getD bi GRID_EMPTY ≠ GRID_EMPTY →
      (g.grid.getD ai GRID_EMPTY).toNat ≠ (g.grid.getD bi GRID_EMPTY).toNat := by
    intro h1 h2 hc
    apply hcc
    rw [← (hcaS h1).2.2, ← (hcbS h2).2.2, hc]
  subst hg1
  have hailen : ai < g.grid.length := by rw [hlen]; exact hai
  have hbilen : bi < g.grid.length := by rw [hlen]; exact hbi
  have hq1 : ((g.grid.set ai (g.grid.getD bi GRID_EMPTY)).set bi
      (g.grid.getD ai GRID_EMPTY)).getD ai GRID_EMPTY = g.grid.getD bi GRID_EMPTY := by
    rw [getD_set_ne _ _ _ (Ne.symm hne), getD_set_self _ _ _ _ hailen]
  have hq2 : ((g.grid.set ai (g.grid.getD bi GRID_EMPTY)).set bi
      (g.grid.getD ai GRID_EMPTY)).getD bi GRID_EMPTY = g.grid.getD ai GRID_EMPTY := by
    rw [getD_set_self _ _ _ _ (by simpa using hbilen)]
  simp only [Grid.swap_grid_cells_leave_cost]
  rw [if_neg hne, hq1, hq2, if_neg (fun hc => hcc hc.symm)]
  refine congrArg Option.some ?_
  have hgrid : (((g.grid.set ai (g.grid.getD bi GRID_EMPTY)).set bi
        (g.grid.getD ai GRID_EMPTY)).set ai (g.grid.getD ai GRID_EMPTY)).set bi
        (g.grid.getD bi GRID_EMPTY) = g.grid := by
    refine list_ext_getD _ _ GRID_EMPTY (by simp) ?_
    intro gi hgi
    by_cases ha : gi = ai
    · subst ha
      rw [getD_set_ne _ _ _ (Ne.symm hne),
        getD_set_self _ _ _ _ (by simpa using hailen)]
    · by_cases hb : gi = bi
      · subst hb
        rw [getD_set_self _ _ _ _ (by simpa using hbilen)]
      · rw [getD_set_ne _ _ _ (fun hc => hb hc.symm),
          getD_set_ne _ _ _ (fun hc => ha hc.symm),
          getD_set_ne _ _ _ (fun hc => hb hc.symm),
          getD_set_ne _ _ _ (fun hc => ha hc.symm)]
  have hplen1 :
      (if g.grid.getD bi GRID_EMPTY ≠ GRID_EMPTY
        then (if g.grid.getD ai GRID_EMPTY ≠ GRID_EMPTY
          then g.component_to_grid_pos.set (g.grid.getD ai GRID_EMPTY).toNat bi
          else g.component_to_grid_pos).set (g.grid.getD bi GRID_EMPTY).toNat ai
        else (if g.grid.getD ai GRID_EMPTY ≠ GRID_EMPTY
          then g.component_to_grid_pos.set (g.grid.getD ai GRID_EMPTY).toNat bi
          else g.component_to_grid_pos)).length = g.component_to_grid_pos.length := by
    split <;> split <;> simp
  have hpos2 : (if g.grid.getD ai GRID_EMPTY ≠ GRID_EMPTY
      then (if g.grid.getD bi GRID_EMPTY ≠ GRID_EMPTY
        then (if g.grid.getD bi GRID_EMPTY ≠ GRID_EMPTY
          then (if g.grid.getD ai GRID_EMPTY ≠ GRID_EMPTY
            then g.component_to_grid_pos.set (g.grid.getD ai GRID_EMPTY).toNat bi
            else g.component_to_grid_pos).set (g.grid.getD bi GRID_EMPTY).toNat ai
          else (if g.grid.getD ai GRID_EMPTY ≠ GRID_EMPTY
            then g.component_to_grid_pos.set (g.grid.getD ai GRID_EMPTY).toNat bi
            else g.component_to_grid_pos)).set (g.grid.getD bi GRID_EMPTY).toNat bi
        else (if g.grid.getD bi GRID_EMPTY ≠ GRID_EMPTY
          then (if g.grid.getD ai GRID_EMPTY ≠ GRID_EMPTY
            then g.component_to_grid_pos.set (g.grid.getD ai GRID_EMPTY).toNat bi
            else g.component_to_grid_pos).set (g.grid.getD bi GRID_EMPTY).toNat ai
          else (if g.grid.getD ai GRID_EMPTY ≠ GRID_EMPTY
            then g.component_to_grid_pos.set (g.grid.getD ai GRID_EMPTY).toNat bi
            else g.component_to_grid_pos))).set (g.grid.getD ai GRID_EMPTY).toNat ai
      else (if g.grid.getD bi GRID_EMPTY ≠ GRID_EMPTY
        then (if g.grid.getD bi GRID_EMPTY ≠ GRID_EMPTY
          then (if g.grid.getD ai GRID_EMPTY ≠ GRID_EMPTY
            then g.component_to_grid_pos.set (g.grid.getD ai GRID_EMPTY).toNat bi
            else g.component_to_grid_pos).set (g.grid.getD bi GRID_EMPTY).toNat ai
          else (if g.grid.getD ai GRID_EMPTY ≠ GRID_EMPTY
            then g.component_to_grid_pos.set (g.grid.getD ai GRID_EMPTY).toNat bi
            else g.component_to_grid_pos)).set (g.grid.getD bi GRID_EMPTY).toNat bi
        else (if g.grid.getD bi GRID_EMPTY ≠ GRID_EMPTY
          then (if g.grid.getD ai GRID_EMPTY ≠ GRID_EMPTY
            then g.component_to_grid_pos.set (g.grid.getD ai GRID_EMPTY).toNat bi
            else g.component_to_grid_pos).set (g.grid.getD bi GRID_EMPTY).toNat ai
          else (if g.grid.getD ai GRID_EMPTY ≠ GRID_EMPTY
            then g.component_to_grid_pos.set (g.grid.getD ai GRID_EMPTY).toNat bi
            else g.component_to_grid_pos))))
      = g.component_to_grid_pos := by
    refine list_ext_getD _ _ 0
      (by rw [length_if_set, length_if_set, hplen1]) ?_
    intro ci hci
    rw [length_if_set, length_if_set, hplen1] at hci
    by_cases hcacase : g.grid.getD ai GRID_EMPTY ≠ GRID_EMPTY
        ∧ ci = (g.grid.getD ai GRID_EMPTY).toNat
    · obtain ⟨hca, rfl⟩ := hcacase
      rw [if_pos hca,
        getD_set_self _ _ _ _
          (by rw [length_if_set, hplen1, hplen]; exact (hcaS hca).1),
        (hcaS hca).2.1]
    · by_cases hcbcase : g.grid.getD bi GRID_EMPTY ≠ GRID_EMPTY
          ∧ ci = (g.grid.getD bi GRID_EMPTY).toNat
      · obtain ⟨hcb, rfl⟩ := hcbcase
        have hstep : ∀ l : List Nat, l.length = g.component_to_grid_pos.length →
            (l.set (g.grid.getD bi GRID_EMPTY).toNat bi).getD
              (g.grid.getD bi GRID_EMPTY).toNat 0 = bi := by
          intro l hl
          exact getD_set_self _ _ _ _ (by rw [hl, hplen]; exact (hcbS hcb).1)
        by_cases hca : g.grid.getD ai GRID_EMPTY ≠ GRID_EMPTY
        · rw [if_pos hca,
            getD_set_ne _ _ _ (fun hc => hdist hca hcb hc), if_pos hcb,
            hstep _ hplen1, (hcbS hcb).2.1]
        · rw [if_neg hca, if_pos hcb, hstep _ hplen1, (hcbS hcb).2.1]
      · have h1 : g.grid.getD ai GRID_EMPTY = GRID_EMPTY
            ∨ ci ≠ (g.grid.getD ai GRID_EMPTY).toNat := by
          by_cases hca : g.grid.getD ai GRID_EMPTY = GRID_EMPTY
          · exact Or.inl hca
          · exact Or.inr fun hc => hcacase ⟨hca, hc⟩
        have h2 : g.grid.getD bi GRID_EMPTY = GRID_EMPTY
            ∨ ci ≠ (g.grid.getD bi GRID_EMPTY).toNat := by
          by_cases hcb : g.grid.getD bi GRID_EMPTY = GRID_EMPTY
          · exact Or.inl hcb
          · exact Or.inr fun hc => hcbcase ⟨hcb, hc⟩
        have houter : ∀ l : List Nat,
            (if g.grid.getD ai GRID_EMPTY ≠ GRID_EMPTY
              then l.set (g.grid.getD ai GRID_EMPTY).toNat ai else l).getD ci 0
            = l.getD ci 0 := by
          intro l
          split
          · next hca =>
            rcases h1 with hca' | hci'
            · exact absurd hca' hca
            · exact getD_set_ne _ _ _ (fun hc => hci' hc.symm)
          · rfl
        have hmid : ∀ l : List Nat,
            (if g.grid.getD bi GRID_EMPTY ≠ GRID_EMPTY
              then l.set (g.grid.getD bi GRID_EMPTY).toNat bi else l).getD ci 0
            = l.getD ci 0 := by
          intro l
          split
          · next hcb =>
            rcases h2 with hcb' | hci'
            · exact absurd hcb' hcb
            · exact getD_set_ne _ _ _ (fun hc => hci' hc.symm)
          · rfl
        have hx := hp3 ci h1 h2
        by_cases hca : g.grid.getD ai GRID_EMPTY ≠ GRID_EMPTY <;>
          [rw [if_pos hca]; rw [if_neg hca]] <;>
          · first
            | (rw [getD_set_ne _ _ _ (fun hc =>
                  (h1.resolve_left hca) hc.symm)]
               rw [hmid]
               exact hx)
            | (rw [hmid]
               exact hx)
  rw [hgrid]
  rw [hpos2]

/-- What the two swapped cells read after a successful swap. -/
theorem swap_reads {g : Grid} {ai bi : Nat} {g1 : Grid} (hP : g.PosInv)
    (hai : ai < g.grid_area) (hbi : bi < g.grid_area)
    (hsw : g.swap_grid_cells_leave_cost ai bi = some g1) :
    g1.grid.getD ai GRID_EMPTY = g.grid.getD bi GRID_EMPTY ∧
    g1.grid.getD bi GRID_EMPTY = g.grid.getD ai GRID_EMPTY := by
  obtain ⟨hne, hcc, hg1⟩ := swap_eq hsw
  subst hg1
  have hailen : ai < g.grid.length := by rw [hP.1]; exact hai
  have hbilen : bi < g.grid.length := by rw [hP.1]; exact hbi
  constructor
  · rw [getD_set_ne _ _ _ (Ne.symm hne), getD_set_self _ _ _ _ hailen]
  · rw [getD_set_self _ _ _ _ (by simpa using hbilen)]

/-- On acceptance the committed state keeps the full invariant: the
cache entries of the affected wires are replaced by their fresh costs,
every other wire's cost is unchanged by the swap, and the incremental
total matches the sum of the updated cache. -/
theorem accept_inv (g : Grid) (hWf : g.Wf) (hP : g.PosInv) (hC : g.CostInv)
    {ai bi : Nat} (hai : ai < g.grid_area) (hbi : bi < g.grid_area) {g1 : Grid}
    (hsw : g.swap_grid_cells_leave_cost ai bi = some g1) :
    (Grid.acceptState g1 ai bi).Inv := by
  obtain ⟨hP1, hmoved⟩ := swap_posInv g hP hai hbi hsw
  obtain ⟨hr1, hr2⟩ := swap_reads hP hai hbi hsw
  obtain ⟨hne, hcc, hg1⟩ := swap_eq hsw
  have hwires : g1.wire_index_to_component_indices
      = g.wire_index_to_component_indices := by rw [hg1]
  have hcwires : g1.component_index_to_wire_indices
      = g.component_index_to_wire_indices := by rw [hg1]
  have hcost1 : g1.wire_index_to_cost = g.wire_index_to_cost := by rw [hg1]
  have hcurr1 : g1.curr_cost = g.curr_cost := by rw [hg1]
  have hsize1 : g1.grid_size = g.grid_size := by rw [hg1]
  have hnum1 : g1.numWires = g.numWires := by
    unfold Grid.numWires; rw [hwires]
  have hcaS := fun h => cell_comp g hP hai h
  have hcbS := fun h => cell_comp g hP hbi h
  -- the two occupants after the swap are valid components of g
  have hocc_a : g1.grid.getD ai GRID_EMPTY ≠ GRID_EMPTY →
      (g1.grid.getD ai GRID_EMPTY).toNat < g.numComponents := by
    rw [hr1]; exact fun h => (hcbS h).1
  have hocc_b : g1.grid.getD bi GRID_EMPTY ≠ GRID_EMPTY →
      (g1.grid.getD bi GRID_EMPTY).toNat < g.numComponents := by
    rw [hr2]; exact fun h => (hcaS h).1
  -- every affected wire index is in range
  have haf_lt : ∀ wi ∈ Grid.affectedWires g1 ai bi, wi < g.numWires := by
    intro wi hwi
    rw [Grid.affectedWires, List.mem_dedup, List.mem_append] at hwi
    rcases hwi with hwi | hwi
    · by_cases hca : g1.grid.getD ai GRID_EMPTY ≠ GRID_EMPTY
      · rw [if_pos hca, hcwires] at hwi
        exact (hWf.1 _ (hocc_a hca) wi hwi).1
      · rw [if_neg hca] at hwi
        exact absurd hwi (List.not_mem_nil _)
    · by_cases hcb : g1.grid.getD bi GRID_EMPTY ≠ GRID_EMPTY
      · rw [if_pos hcb, hcwires] at hwi
        exact (hWf.1 _ (hocc_b hcb) wi hwi).1
      · rw [if_neg hcb] at hwi
        exact absurd hwi (List.not_mem_nil _)
  have hkeys : (Grid.swapPairs g1 ai bi).map (·.1) = Grid.affectedWires g1 ai bi := by
    rw [Grid.swapPairs, List.map_map]
    exact List.map_id _
  have hnodup : ((Grid.swapPairs g1 ai bi).map (·.1)).Nodup := by
    rw [hkeys]
    exact List.nodup_dedup _
  have hlt : ∀ p ∈ Grid.swapPairs g1 ai bi, p.1 < g1.wire_index_to_cost.length := by
    intro p hp
    rw [hcost1, hC.1]
    obtain ⟨wi, hwi, rfl⟩ := List.mem_map.mp hp
    exact haf_lt wi hwi
  obtain ⟨flen, fset, fother, fsum⟩ := foldl_set_spec (Grid.swapPairs g1 ai bi)
    g1.wire_index_to_cost hnodup hlt
  -- a wire not touched by either occupant keeps its cost across the swap
  have hsame : ∀ wi, wi < g.numWires → wi ∉ Grid.affectedWires g1 ai bi →
      g1.wire_cost wi = g.wire_cost wi := by
    intro wi hwi hnm
    refine wire_cost_congr g g1 hwires hsize1 wi ?_
    intro ci hci
    have hspec := hWf.2 wi hwi ci hci
    refine hmoved ci ?_ ?_
    · by_cases hca : g.grid.getD ai GRID_EMPTY = GRID_EMPTY
      · exact Or.inl hca
      · refine Or.inr fun hc => hnm ?_
        rw [Grid.affectedWires, List.mem_dedup, List.mem_append]
        refine Or.inr ?_
        rw [if_pos (by rw [hr2]; exact hca), hcwires, hr2, ← hc]
        exact hspec.2
    · by_cases hcb : g.grid.getD bi GRID_EMPTY = GRID_EMPTY
      · exact Or.inl hcb
      · refine Or.inr fun hc => hnm ?_
        rw [Grid.affectedWires, List.mem_dedup, List.mem_append]
        refine Or.inl ?_
        rw [if_pos (by rw [hr1]; exact hcb), hcwires, hr1, ← hc]
        exact hspec.2
  refine ⟨hP1, ?_, ?_, ?_⟩
  · show ((Grid.swapPairs g1 ai bi).foldl (fun l p => l.set p.1 p.2)
        g1.wire_index_to_cost).length = (Grid.acceptState g1 ai bi).numWires
    rw [flen, hcost1, hC.1]
    exact hnum1.symm
  · intro wi hwi
    have hwi' : wi < g.numWires := hnum1 ▸ hwi
    by_cases hmem : wi ∈ Grid.affectedWires g1 ai bi
    · exact fset (wi, g1.wire_cost wi)
        (List.mem_map_of_mem (fun wj => (wj, g1.wire_cost wj)) hmem)
    · have h2 := fother wi (by rw [hkeys]; exact hmem)
      show ((Grid.swapPairs g1 ai bi).foldl (fun l p => l.set p.1 p.2)
        g1.wire_index_to_cost).getD wi 0 = (Grid.acceptState g1 ai bi).wire_cost wi
      rw [h2, hcost1, hC.2.1 wi hwi']
      exact (hsame wi hwi' hmem).symm
  · show Grid.swapNewCost g1 ai bi
        = ((Grid.swapPairs g1 ai bi).foldl (fun l p => l.set p.1 p.2)
          g1.wire_index_to_cost).sum
    rw [Grid.swapNewCost, fsum, hcurr1, hC.2.2, hcost1]

/-- C3: every `opt_step` call — timid no-op, accepted swap, or
rejected-and-undone swap — preserves the `check_validness`
invariants: grid and position table agree bidirectionally, every
cached per-wire cost equals its fresh recomputation, and the cached
total equals the sum of the cached per-wire costs. -/
theorem claim3_opt_step_preserves_invariants (g : Grid) (hWf : g.Wf)
    (hInv : g.Inv) (ai bi : Nat) (hai : ai < g.grid_area)
    (hbi : bi < g.grid_area) (r : Bool) :
    ((g.opt_step ai bi r).1).Inv := by
  obtain ⟨hP, hC⟩ := hInv
  unfold Grid.opt_step Grid.try_swap_cells
  cases hsw : g.swap_grid_cells_leave_cost ai bi with
  | none => exact ⟨hP, hC⟩
  | some g1 =>
    show (if (decide (Grid.swapNewCost g1 ai bi < g1.curr_cost) || r) = true
        then (Grid.acceptState g1 ai bi, true)
        else match g1.swap_grid_cells_leave_cost ai bi with
          | some g2 => (g2, false)
          | none => (g1, false)).1.Inv
    by_cases hacc :
        (decide (Grid.swapNewCost g1 ai bi < g1.curr_cost) || r) = true
    · rw [if_pos hacc]
      exact accept_inv g hWf hP hC hai hbi hsw
    · rw [if_neg hacc, swap_swap g hP hai hbi hsw]
      exact ⟨hP, hC⟩

/-- C3 witness: a forced (accepted) swap on the 2×2 example grid. -/
theorem claim3_witness :
    exGrid.Wf ∧ exGrid.Inv ∧ 1 < exGrid.grid_area ∧ 2 < exGrid.grid_area ∧
    ((exGrid.opt_step 1 2 true).1).Inv :=
  ⟨by decide, by decide, by decide, by decide,
   claim3_opt_step_preserves_invariants exGrid (by decide) (by decide) 1 2
     (by decide) (by decide) true⟩

end TCpu
